import Mathlib

/-!
cachestore: identifier validation and batch shape classification

A shallow embedding of `appengine.go` (package `cachestore`): the key validator
`valid`, its batch version `multiValid`, and the slice classifier `checkMultiArg`,
with the parts of `appengine/datastore` and `reflect` they observe; and a model of the
cache-store coordinators `Get`, `Put`, `Delete`, `GetMulti`, `PutMulti`, `DeleteMulti`
that follows their specification.
-/

namespace Cachestore

/-! ## datastore.Key -/

/-- The `datastore.Key` struct: kind, string id, int id, parent, app id and namespace (field `ns`).
A `*datastore.Key` is an `Option Key`, `none` being the nil pointer. Keys are
immutable and built bottom-up, so a parent chain is finite. -/
inductive Key where
  | mk (kind : String) (stringID : String) (intID : Int) (parent : Option Key)
      (appID : String) (ns : String)

namespace Key

/-- `Key.Kind`. -/
def Kind : Key → String
  | mk kind _ _ _ _ _ => kind

/-- `Key.StringID`. -/
def StringID : Key → String
  | mk _ stringID _ _ _ _ => stringID

/-- `Key.IntID`. -/
def IntID : Key → Int
  | mk _ _ intID _ _ _ => intID

/-- `Key.Parent`. -/
def Parent : Key → Option Key
  | mk _ _ _ parent _ _ => parent

/-- `Key.AppID`. -/
def AppID : Key → String
  | mk _ _ _ _ appID _ => appID

/-- `Key.Incomplete`: the key has neither a string id nor an int id. -/
def Incomplete (k : Key) : Bool :=
  k.StringID == "" && k.IntID == 0

/-- The ancestor chain of a key: the key itself, its parent, its grandparent, ...
up to the root. -/
def chain : Key → List Key
  | mk kind stringID intID none appID ns => [mk kind stringID intID none appID ns]
  | mk kind stringID intID (some p) appID ns =>
      mk kind stringID intID (some p) appID ns :: chain p

/-- The proper ancestors of a key: its chain without the key itself. -/
def ancestors (k : Key) : List Key :=
  match k.Parent with
  | none => []
  | some p => chain p

end Key

/-- The loop of `valid`, entered with a non-nil key: one iteration of the body on `k`,
then the loop goes on with `k.Parent()` and ends with `true` when that is nil. -/
def validLoop : Key → Bool
  | .mk kind stringID intID none appID ns =>
      let k := Key.mk kind stringID intID none appID ns
      if k.Kind == "" || k.AppID == "" then false
      else if k.StringID != "" && k.IntID != 0 then false
      else true
  | .mk kind stringID intID (some p) appID ns =>
      let k := Key.mk kind stringID intID (some p) appID ns
      if k.Kind == "" || k.AppID == "" then false
      else if k.StringID != "" && k.IntID != 0 then false
      else if p.Incomplete then false
      else if p.AppID != k.AppID then false
      else validLoop p

/-- `valid` returns whether the key is valid. -/
def valid : Option Key → Bool
  | none => false
  | some k => validLoop k

/-- The recursive reading of `valid`: the key passes its own kind, app id and not-both
checks, and either has no parent or its parent is complete, shares the app id of the
key and is itself valid. -/
def validRec : Key → Bool
  | .mk kind stringID intID none appID _ =>
      (kind != "" && appID != "") && !(stringID != "" && intID != 0)
  | .mk kind stringID intID (some p) appID _ =>
      ((kind != "" && appID != "") && !(stringID != "" && intID != 0)) &&
        (!p.Incomplete && p.AppID == appID && validRec p)

/-! ## Errors and multiValid -/

/-- Go error values seen by this package: the sentinel errors of `appengine/datastore`
and `appengine.MultiError`, a slice of errors. A Go `error` is an `Option Error`,
`none` being nil. -/
inductive Error where
  | ErrInvalidEntityType
  | ErrInvalidKey
  | ErrNoSuchEntity
  | MultiError (errs : List (Option Error))

/-- The first loop of `multiValid`: the flag `invalid` after scanning the keys,
stopping at the first key that `valid` rejects. -/
def multiValidScan : List (Option Key) → Bool
  | [] => false
  | k :: ks => if !valid k then true else multiValidScan ks

/-- The second loop of `multiValid`: walks the keys from index `i` on and stores
`ErrInvalidKey` at the index of every key that `valid` rejects. -/
def multiValidFill (err : List (Option Error)) : Nat → List (Option Key) → List (Option Error)
  | _, [] => err
  | i, k :: ks =>
      multiValidFill (if !valid k then err.set i (some Error.ErrInvalidKey) else err) (i + 1) ks

/-- `multiValid` is a batch version of `valid`. It returns an error, not a list of
booleans. -/
def multiValid (key : List (Option Key)) : Option Error :=
  let invalid := multiValidScan key
  if !invalid then none
  else
    let err : List (Option Error) := List.replicate key.length none
    some (Error.MultiError (multiValidFill err 0 key))

/-- Specification of one entry of the aggregate of `multiValid`: `ErrInvalidKey` if `valid` rejects it,
nil otherwise. -/
def invalidKeyOrNil (k : Option Key) : Option Error :=
  if valid k then none else some Error.ErrInvalidKey

/-- The one-pass reference of `multiValid`: computes `ErrInvalidKey` or nil for each
position, and returns nil when no position holds an error and the positional list
otherwise. -/
def multiValidRef (key : List (Option Key)) : Option Error :=
  let errs := key.map invalidKeyOrNil
  if errs.all Option.isNone then none else some (Error.MultiError errs)

/-! ## reflect -/

namespace reflect

/-- The type `reflect.Kind`. -/
inductive Kind where
  | Invalid | Bool | Int | Int8 | Int16 | Int32 | Int64
  | Uint | Uint8 | Uint16 | Uint32 | Uint64 | Uintptr
  | Float32 | Float64 | Complex64 | Complex128
  | Array | Chan | Func | Interface | Map | Ptr | Slice | String | Struct | UnsafePointer
  deriving DecidableEq

/-- The predeclared non-composite Go types. -/
inductive Basic where
  | bool | int | int8 | int16 | int32 | int64
  | uint | uint8 | uint16 | uint32 | uint64 | uintptr
  | float32 | float64 | complex64 | complex128 | string | unsafePointer
  deriving DecidableEq

/-- The kind of a predeclared type. -/
def Basic.kind : Basic → Kind
  | .bool => .Bool | .int => .Int | .int8 => .Int8 | .int16 => .Int16
  | .int32 => .Int32 | .int64 => .Int64
  | .uint => .Uint | .uint8 => .Uint8 | .uint16 => .Uint16 | .uint32 => .Uint32
  | .uint64 => .Uint64 | .uintptr => .Uintptr
  | .float32 => .Float32 | .float64 => .Float64
  | .complex64 => .Complex64 | .complex128 => .Complex128
  | .string => .String | .unsafePointer => .UnsafePointer

/-- Direction of a channel type. -/
inductive ChanDir where
  | RecvDir | SendDir | BothDir
  deriving DecidableEq

/-- A method of a method set: its name and its signature in Go syntax. -/
structure Method where
  name : String
  sig : String
  deriving DecidableEq

/-- A Go type as `reflect.Type` presents it. A struct type carries a rendering of its
field list and the methods promoted from its embedded fields (`promoted` to the struct
itself, `ptrPromoted` in addition to a pointer to it). A defined (named) type carries
its package path, name, underlying type, and its declared methods: `methods` with a
value receiver, `ptrMethods` with a pointer receiver. -/
inductive RType where
  | basic (b : Basic)
  | array (len : Nat) (elem : RType)
  | chan (dir : ChanDir) (elem : RType)
  | func (sig : String)
  | interface (methods : List Method)
  | map (key : RType) (elem : RType)
  | ptr (elem : RType)
  | slice (elem : RType)
  | struct (fields : String) (promoted : List Method) (ptrPromoted : List Method)
  | defined (pkgPath : String) (name : String) (underlying : RType)
      (methods : List Method) (ptrMethods : List Method)
  deriving DecidableEq

namespace RType

/-- `Type.Kind`: a defined type has the kind of its underlying type. -/
def Kind : RType → reflect.Kind
  | basic b => b.kind
  | array _ _ => .Array
  | chan _ _ => .Chan
  | func _ => .Func
  | interface _ => .Interface
  | map _ _ => .Map
  | ptr _ => .Ptr
  | slice _ => .Slice
  | struct _ _ _ => .Struct
  | defined _ _ u _ _ => u.Kind

/-- `Type.Elem`: the element type of an Array, Chan, Map, Ptr or Slice; it panics
(`none`) for every other kind. -/
def Elem : RType → Option RType
  | array _ e => some e
  | chan _ e => some e
  | map _ e => some e
  | ptr e => some e
  | slice e => some e
  | defined _ _ u _ _ => u.Elem
  | _ => none

/-- The method set of the pointer type to `t`. Only a pointer to a struct type or to a
defined type whose underlying type is neither a pointer nor an interface has methods. -/
def ptrMethodSet : RType → List Method
  | struct _ promoted ptrPromoted => promoted ++ ptrPromoted
  | defined _ _ u methods ptrMethods =>
      match u.Kind with
      | .Interface => []
      | .Ptr => []
      | _ => methods ++ ptrMethods ++ u.ptrMethodSet
  | _ => []

/-- The method set of `t`. -/
def methodSet : RType → List Method
  | interface methods => methods
  | struct _ promoted _ => promoted
  | ptr e => e.ptrMethodSet
  | defined _ _ u methods _ =>
      match u.Kind with
      | .Interface => u.methodSet
      | .Ptr => []
      | _ => methods ++ u.methodSet
  | _ => []

/-- `Type.Implements`: whether the method set of `t` holds every method of the
interface type `u`; it panics (`none`) when `u` is not an interface type. -/
def Implements (t u : RType) : Option Bool :=
  if u.Kind = .Interface then some (u.methodSet.all fun m => decide (m ∈ t.methodSet))
  else none

end RType

/-- `reflect.PtrTo`. -/
def PtrTo (t : RType) : RType := .ptr t

/-- A `reflect.Value`, as far as its type goes: `typ` is `none` for the zero Value. -/
structure Value where
  typ : Option RType
  deriving DecidableEq

/-- `Value.Kind`: Invalid for the zero Value. -/
def Value.Kind (v : Value) : reflect.Kind :=
  match v.typ with
  | none => .Invalid
  | some t => t.Kind

/-- `Value.Type`: it panics (`none`) on the zero Value. -/
def Value.Type (v : Value) : Option RType := v.typ

end reflect

/-! ## appengine/datastore types -/

namespace datastore

open reflect

/-- The struct type `datastore.Property`. -/
def Property : RType :=
  .defined "appengine/datastore" "Property"
    (.struct "Name string; Value interface\x7b\x7d; NoIndex bool; Multiple bool" [] []) [] []

/-- The two methods of `datastore.PropertyLoadSaver`. -/
def loadSaveMethods : List Method :=
  [⟨"Load", "func(<-chan datastore.Property) error"⟩,
   ⟨"Save", "func(chan<- datastore.Property) error"⟩]

/-- The interface type `datastore.PropertyLoadSaver`. -/
def PropertyLoadSaver : RType :=
  .defined "appengine/datastore" "PropertyLoadSaver" (.interface loadSaveMethods) [] []

/-- The type `datastore.PropertyList`, a slice of `Property` whose pointer type
implements `PropertyLoadSaver`. -/
def PropertyList : RType :=
  .defined "appengine/datastore" "PropertyList" (.slice Property) [] loadSaveMethods

end datastore

/-! ## Types of the tests -/

namespace test

open reflect

/-- The struct type `PropertyLoadSaver` of `cachestore_test.go`: one string field `S`,
with `Load` and `Save` declared on the pointer receiver. -/
def PropertyLoadSaver : RType :=
  .defined "cachestore" "PropertyLoadSaver" (.struct "S string" [] []) []
    datastore.loadSaveMethods

/-- The struct type `Struct` of `cachestore_test.go`: one int field `I`, no methods. -/
def Struct : RType :=
  .defined "cachestore" "Struct" (.struct "I int" [] []) [] []

end test

/-! ## checkMultiArg -/

open reflect

/-- The type `multiArgType`, an int. -/
abbrev multiArgType := Int

def multiArgTypeInvalid : multiArgType := 0
def multiArgTypePropertyLoadSaver : multiArgType := 1
def multiArgTypeStruct : multiArgType := 2
def multiArgTypeStructPtr : multiArgType := 3
def multiArgTypeInterface : multiArgType := 4

/-- The value of `reflect.TypeOf((*datastore.PropertyLoadSaver)(nil)).Elem()`. -/
def typeOfPropertyLoadSaver : RType := datastore.PropertyLoadSaver

/-- The value of `reflect.TypeOf(datastore.PropertyList(nil))`. -/
def typeOfPropertyList : RType := datastore.PropertyList

/-- `checkMultiArg` checks that `v` has type `[]S`, `[]*S`, `[]I`, or `[]P`, for some
struct type `S`, some interface type `I`, or some type `P` such that `*P` implements
`PropertyLoadSaver`. It returns the category of the slice's elements and the type that
represents `S`, `I` or `P` (`none` is the nil `reflect.Type`). The outer `Option` is
`none` when a reflect call panics. -/
def checkMultiArg (v : Value) : Option (multiArgType × Option RType) :=
  if v.Kind ≠ reflect.Kind.Slice then some (multiArgTypeInvalid, none)
  else
    match v.Type with
    | none => none
    | some vType =>
      if vType = typeOfPropertyList then some (multiArgTypeInvalid, none)
      else
        match vType.Elem with
        | none => none
        | some elemType =>
          match (PtrTo elemType).Implements typeOfPropertyLoadSaver with
          | none => none
          | some true => some (multiArgTypePropertyLoadSaver, some elemType)
          | some false =>
            match elemType.Kind with
            | .Struct => some (multiArgTypeStruct, some elemType)
            | .Interface => some (multiArgTypeInterface, some elemType)
            | .Ptr =>
              match elemType.Elem with
              | none => none
              | some elemType =>
                if elemType.Kind = reflect.Kind.Struct then some (multiArgTypeStructPtr, some elemType)
                else some (multiArgTypeInvalid, none)
            | _ => some (multiArgTypeInvalid, none)

/-! ## The cache-store coordinators

The file of the package that holds `Get`, `Put`, `Delete` and their batch versions is
not among the sources; only the tests that call them are. The definitions of this
section follow the specification of the coordinators, over a persistent store and a
cache kept as explicit state. -/

/-- `Key.Namespace`. -/
def Key.Namespace : Key → String
  | .mk _ _ _ _ _ ns => ns

/-- One element of a serialized key: kind, string id, int id, app id, namespace. -/
abbrev PathElem := String × String × Int × String × String

/-- Modelled from the spec: Key Fingerprinting (`key.Encode()` in the tests), the cache
key of an identifier, whose code is missing. It is the canonical serialized form of the identifier: the fields
of every key of the ancestor chain, the key itself first, so kind, scope, ancestor chain
and name or id are kept without loss. -/
def fingerprint (k : Key) : List PathElem :=
  k.chain.map fun a => (a.Kind, a.StringID, a.IntID, a.AppID, a.Namespace)

/-- Modelled from the spec: the completion of an identifier by the persistent store
(missing: the store is an external collaborator), the same key with the assigned
numeric id. -/
def Key.withIntID : Key → Int → Key
  | .mk kind stringID _ parent appID ns, n => .mk kind stringID n parent appID ns

/-- Modelled from the spec: the binding of a record type `R` to the representation `E`
that the store persists and the cache holds (missing: the data-binding layer). `save`
is what writing a record produces, `load` what reading builds; for a plain struct they
undo each other, for a record with the custom load/save capability they are its `Save`
and `Load` methods. -/
structure Binding (R E : Type) where
  save : R → E
  load : E → R

namespace test

/-- The binding of the test struct `Struct` with its one int field `I`: the stored
representation is the value of `I`, saved and loaded as it is. -/
def structBinding : Binding Int Int := ⟨fun i => i, fun i => i⟩

/-- The binding of the test struct `PropertyLoadSaver` with its one string field `S`:
`Save` sends the property `S` with the value `p.S + ".save"`, and `Load` loads the
struct and then appends `".load"` to `S`. -/
def loadSaverBinding : Binding String String :=
  ⟨fun s => s ++ ".save", fun e => e ++ ".load"⟩

end test

/-- A table from serialized keys to stored representations. -/
abbrev Table (E : Type) := List PathElem → Option E

/-- The table with `e` at `p`. -/
def tableSet {E : Type} (t : Table E) (p : List PathElem) (e : E) : Table E :=
  fun q => if q = p then some e else t q

/-- The table without an entry at `p`. -/
def tableRemove {E : Type} (t : Table E) (p : List PathElem) : Table E :=
  fun q => if q = p then none else t q

/-- The table after a batch of writes, in order. -/
def tableSetAll {E : Type} (t : Table E) : List (List PathElem × E) → Table E
  | [] => t
  | (p, e) :: rest => tableSetAll (tableSet t p e) rest

/-- The table without the entries at the keys of `ps`. -/
def tableRemoveAll {E : Type} (t : Table E) (ps : List (List PathElem)) : Table E :=
  fun q => if q ∈ ps then none else t q

/-- Modelled from the spec: the two collaborators as state (missing: the persistent
store service and the cache service). `store` holds the entity of each stored
identifier, `cache` the entry of each fingerprint, and `nextID` counts the numeric ids
the store has assigned. -/
structure State (E : Type) where
  store : Table E
  cache : Table E
  nextID : Nat

/-- The state with an empty store and an empty cache. -/
def State.empty {E : Type} : State E := ⟨fun _ => none, fun _ => none, 0⟩

/-- Modelled from the spec: how the collaborators answer the calls of one operation
(missing: the two services). `storeErr` is the error with which the persistent store
fails the call, nil if it serves it; `cacheUp` tells whether the cache serves its
calls. -/
structure Env where
  storeErr : Option Error
  cacheUp : Bool

/-- Both collaborators serve the calls. -/
def Env.healthy : Env := ⟨none, true⟩

section Coordinators

variable {R E : Type}

/-- Modelled from the spec: the cache contract `get(key) -> bytes | miss`; a cache that
does not serve the call counts as a miss. -/
def cacheGet (env : Env) (s : State E) (fp : List PathElem) : Option E :=
  if env.cacheUp then s.cache fp else none

/-- Modelled from the spec: the cache contract `set(key, bytes) -> ok | error`; the
error is ignored and leaves the cache as it was. -/
def cacheSet (env : Env) (s : State E) (fp : List PathElem) (e : E) : State E :=
  if env.cacheUp then { s with cache := tableSet s.cache fp e } else s

/-- Modelled from the spec: the cache contract `delete(key) -> ok | error`; the error is
ignored and leaves the cache as it was. -/
def cacheDelete (env : Env) (s : State E) (fp : List PathElem) : State E :=
  if env.cacheUp then { s with cache := tableRemove s.cache fp } else s

/-- Modelled from the spec: the cache contract `setMulti(key->bytes) -> ok | error`. -/
def cacheSetAll (env : Env) (s : State E) (entries : List (List PathElem × E)) : State E :=
  if env.cacheUp then { s with cache := tableSetAll s.cache entries } else s

/-- Modelled from the spec: the cache contract `deleteMulti(keys) -> ok | error`. -/
def cacheDeleteAll (env : Env) (s : State E) (fps : List (List PathElem)) : State E :=
  if env.cacheUp then { s with cache := tableRemoveAll s.cache fps } else s

/-- Modelled from the spec: the store contract `get(id) -> record | NotFoundError`. -/
def storeGet (env : Env) (s : State E) (k : Key) : Except Error E :=
  match env.storeErr with
  | some err => .error err
  | none =>
    match s.store (fingerprint k) with
    | some e => .ok e
    | none => .error Error.ErrNoSuchEntity

/-- Modelled from the spec: the identifiers the store returns for a batch of writes. An
incomplete identifier gets the next numeric id, a complete one is kept. The second
component is the counter after the batch. -/
def completeAll (next : Nat) : List Key → List Key × Nat
  | [] => ([], next)
  | k :: ks =>
    if k.Incomplete then
      ((k.withIntID ((next + 1 : Nat) : Int)) :: (completeAll (next + 1) ks).1,
        (completeAll (next + 1) ks).2)
    else (k :: (completeAll next ks).1, (completeAll next ks).2)

/-- Modelled from the spec: the store contract `putMulti(ids, records) -> finalIds`,
when the store serves the call. -/
def storePutAll (s : State E) (ks : List Key) (es : List E) : List Key × State E :=
  let finals := (completeAll s.nextID ks).1
  (finals, { s with store := tableSetAll s.store ((finals.map fingerprint).zip es),
                    nextID := (completeAll s.nextID ks).2 })

/-- Modelled from the spec: the store contract `put(id, record) -> finalId | error`. -/
def storePut (env : Env) (s : State E) (k : Key) (e : E) : Except Error (Key × State E) :=
  match env.storeErr with
  | some err => .error err
  | none =>
    let final := if k.Incomplete then k.withIntID ((s.nextID + 1 : Nat) : Int) else k
    .ok (final, { s with store := tableSet s.store (fingerprint final) e,
                         nextID := if k.Incomplete then s.nextID + 1 else s.nextID })

/-- The state after the entity of `k` is removed from the persistent store. -/
def removeEntity (s : State E) (k : Key) : State E :=
  { s with store := tableRemove s.store (fingerprint k) }

/-- Modelled from the spec: the store contract `delete(id) -> error`. -/
def storeDelete (env : Env) (s : State E) (k : Key) : Except Error (State E) :=
  match env.storeErr with
  | some err => .error err
  | none => .ok (removeEntity s k)

/-- Modelled from the spec: `Get(identifier, out-record)` of the Single-Item
Cache-Store Coordinator, whose source file is missing. Validate the identifier; look the fingerprint up in the cache;
on a hit decode into the out-record; on a miss read from the store, and on success
encode the out-record and write it to the cache, best effort; a store failure is
returned unchanged. The result holds the out-record. -/
def Get (b : Binding R E) (env : Env) (s : State E) (key : Option Key) :
    State E × Except Error R :=
  match key with
  | none => (s, .error Error.ErrInvalidKey)
  | some k =>
    if valid (some k) then
      match cacheGet env s (fingerprint k) with
      | some e => (s, .ok (b.load e))
      | none =>
        match storeGet env s k with
        | .error err => (s, .error err)
        | .ok e => (cacheSet env s (fingerprint k) (b.save (b.load e)), .ok (b.load e))
    else (s, .error Error.ErrInvalidKey)

/-- Modelled from the spec: the validation step of `Put` (missing: the source file of
the coordinators), which validates a complete identifier and lets an incomplete one
through. -/
def putKeyError (key : Option Key) : Option Error :=
  match key with
  | none => some Error.ErrInvalidKey
  | some k => if !k.Incomplete && !valid (some k) then some Error.ErrInvalidKey else none

/-- Modelled from the spec: `Put(identifier, record) -> finalIdentifier` of the
Single-Item Cache-Store Coordinator, whose source file is missing. Validate the identifier if complete; write to the
store first and return its error without touching the cache; on success encode the
record and write it to the cache under the fingerprint of the final identifier, best
effort. -/
def Put (b : Binding R E) (env : Env) (s : State E) (key : Option Key) (r : R) :
    State E × Except Error Key :=
  match key with
  | none => (s, .error Error.ErrInvalidKey)
  | some k =>
    match putKeyError (some k) with
    | some err => (s, .error err)
    | none =>
      match storePut env s k (b.save r) with
      | .error err => (s, .error err)
      | .ok (final, s1) => (cacheSet env s1 (fingerprint final) (b.save r), .ok final)

/-- Modelled from the spec: `Delete(identifier)` of the Single-Item Cache-Store
Coordinator, whose source file is missing. Validate the identifier; delete from the store first and return its error
without touching the cache; on success remove the fingerprint from the cache, best
effort. -/
def Delete (env : Env) (s : State E) (key : Option Key) : State E × Option Error :=
  match key with
  | none => (s, some Error.ErrInvalidKey)
  | some k =>
    if valid (some k) then
      match storeDelete env s k with
      | .error err => (s, some err)
      | .ok s1 => (cacheDelete env s1 (fingerprint k), none)
    else (s, some Error.ErrInvalidKey)

/-- Modelled from the spec: the Outcome Aggregate of a batch (missing: the source file
of the coordinators): nil when no position
holds an error, the positional collection otherwise. -/
def aggregate (errs : List (Option Error)) : Option Error :=
  if errs.all Option.isNone then none else some (Error.MultiError errs)

/-- The error of a result, nil on success. -/
def errorOf {α : Type} : Except Error α → Option Error
  | .ok _ => none
  | .error err => some err

/-- Modelled from the spec: the cache entry that `GetMulti` writes for a position
(missing: the source file of the coordinators): one
for each valid position that the cache missed and the store read. -/
def repopulation (b : Binding R E) (env : Env) (s : State E) (key : Option Key) :
    Option (List PathElem × E) :=
  match key with
  | none => none
  | some k =>
    if valid (some k) then
      match cacheGet env s (fingerprint k) with
      | some _ => none
      | none =>
        match storeGet env s k with
        | .error _ => none
        | .ok e => some (fingerprint k, b.save (b.load e))
    else none

/-- Modelled from the spec: `GetMulti(identifiers, out-records)` of the Multi-Item
Cache-Store Coordinator, whose source file is missing. An empty input returns at once. Each position is answered as
the single-item read answers it on the state before the batch: the invalid-key error,
the cache entry, or the outcome of the store. The positions read from the store are
then written to the cache, best effort. The result holds the out-records (none at a
failed position) and the aggregate. -/
def GetMulti (b : Binding R E) (env : Env) (s : State E) (keys : List (Option Key)) :
    State E × List (Option R) × Option Error :=
  if keys.isEmpty then (s, [], none)
  else
    let results := keys.map fun key => (Get b env s key).2
    (cacheSetAll env s (keys.filterMap (repopulation b env s)),
      results.map Except.toOption, aggregate (results.map errorOf))

/-- Modelled from the spec: `PutMulti(identifiers, records) -> finalIdentifiers` of the
Multi-Item Cache-Store Coordinator, whose source file is missing. Sequences of different lengths are a caller error;
an empty input returns at once. Validate the complete identifiers; issue one batched
write to the store and return its failure as it is; on success write the entries to the
cache under the fingerprints of the final identifiers, best effort. -/
def PutMulti (b : Binding R E) (env : Env) (s : State E) (keys : List (Option Key))
    (recs : List R) : State E × Except Error (List Key) :=
  if keys.length ≠ recs.length then (s, .error Error.ErrInvalidEntityType)
  else if keys.isEmpty then (s, .ok [])
  else
    match aggregate (keys.map putKeyError) with
    | some err => (s, .error err)
    | none =>
      match env.storeErr with
      | some err => (s, .error err)
      | none =>
        let es := recs.map b.save
        let put := storePutAll s (keys.filterMap fun key => key) es
        (cacheSetAll env put.2 ((put.1.map fingerprint).zip es), .ok put.1)

/-- Modelled from the spec: `DeleteMulti(identifiers)` of the Multi-Item Cache-Store
Coordinator, whose source file is missing. An empty input returns at once. Issue one batched delete to the store for
the valid positions and return its failure as it is; on success remove their
fingerprints from the cache, best effort. The invalid positions carry the invalid-key
error in the aggregate. -/
def DeleteMulti (env : Env) (s : State E) (keys : List (Option Key)) :
    State E × Option Error :=
  if keys.isEmpty then (s, none)
  else
    match env.storeErr with
    | some err => (s, some err)
    | none =>
      let fps := (keys.filter fun key => valid key).filterMap fun key => key.map fingerprint
      (cacheDeleteAll env { s with store := tableRemoveAll s.store fps } fps,
        multiValid keys)

end Coordinators

/-- The key `datastore.NewIncompleteKey(c, kind, nil)` of the tests: an incomplete root
key of the application of the test context. -/
def test.newIncompleteKey (kind : String) : Key := Key.mk kind "" 0 none "testapp" ""

/-! ## Unfolding lemmas -/

theorem Key.chain_root (k : Key) (h : k.Parent = none) : k.chain = [k] := by
  cases k with
  | mk kind sid iid parent app ns =>
    cases parent with
    | none => rfl
    | some p => simp [Key.Parent] at h

theorem Key.chain_child (k p : Key) (h : k.Parent = some p) : k.chain = k :: p.chain := by
  cases k with
  | mk kind sid iid parent app ns =>
    cases parent with
    | none => simp [Key.Parent] at h
    | some q =>
      simp only [Key.Parent, Option.some.injEq] at h
      subst h
      rfl

theorem Key.self_mem_chain (k : Key) : k ∈ k.chain := by
  cases hp : k.Parent with
  | none => simp [Key.chain_root k hp]
  | some p => simp [Key.chain_child k p hp]

theorem ite_false_else (c e : Bool) : (if c = true then false else e) = (!c && e) := by
  cases c <;> rfl

theorem validLoop_root (k : Key) (h : k.Parent = none) :
    validLoop k = (!(k.Kind == "" || k.AppID == "") && !(k.StringID != "" && k.IntID != 0)) := by
  cases k with
  | mk kind sid iid parent app ns =>
    cases parent with
    | none =>
      simp only [validLoop, ite_false_else, Bool.and_true]
    | some p => simp [Key.Parent] at h

theorem validLoop_child (k p : Key) (h : k.Parent = some p) :
    validLoop k = (!(k.Kind == "" || k.AppID == "") && !(k.StringID != "" && k.IntID != 0) &&
      !p.Incomplete && !(p.AppID != k.AppID) && validLoop p) := by
  cases k with
  | mk kind sid iid parent app ns =>
    cases parent with
    | none => simp [Key.Parent] at h
    | some q =>
      simp only [Key.Parent, Option.some.injEq] at h
      subst h
      simp only [validLoop, ite_false_else, Bool.and_assoc]

/-- Induction along the parent chain: from the root down to the key. -/
theorem Key.chain_induction {P : Key → Prop}
    (root : ∀ k, k.Parent = none → P k)
    (step : ∀ k p, k.Parent = some p → P p → P k) : ∀ k, P k
  | .mk _ _ _ none _ _ => root _ rfl
  | .mk _ _ _ (some p) _ _ => step _ p rfl (Key.chain_induction root step p)

theorem Key.chain_eq_cons_ancestors (k : Key) : k.chain = k :: k.ancestors := by
  cases hp : k.Parent with
  | none => simp [Key.chain_root k hp, Key.ancestors, hp]
  | some p => simp [Key.chain_child k p hp, Key.ancestors, hp]

theorem Key.ancestors_child (k p : Key) (h : k.Parent = some p) :
    k.ancestors = p :: p.ancestors := by
  simp [Key.ancestors, h, Key.chain_eq_cons_ancestors p]

theorem Key.ancestors_root (k : Key) (h : k.Parent = none) : k.ancestors = [] := by
  simp [Key.ancestors, h]

/-! ## The validator -/

/-- C1: `valid` accepts every well-formed key. If every key of the ancestor chain of `k`
(`k` included) has a non-empty kind, a non-empty app id, and not both a string id and
an int id, and every key of the chain that has a parent has a parent that is not
incomplete and has the same app id, then `valid k` is true. -/
theorem valid_of_wellFormed (k : Key)
    (hfields : ∀ a ∈ k.chain, a.Kind ≠ "" ∧ a.AppID ≠ "" ∧ ¬(a.StringID ≠ "" ∧ a.IntID ≠ 0))
    (hparent : ∀ a ∈ k.chain, ∀ p, a.Parent = some p →
      p.Incomplete = false ∧ p.AppID = a.AppID) :
    valid (some k) = true := by
  show validLoop k = true
  induction k using Key.chain_induction with
  | root k hk =>
    have h := hfields k k.self_mem_chain
    rw [validLoop_root k hk]
    simp only [ne_eq, not_and, not_not] at h
    simp [h.1, h.2.1]
    by_cases hs : k.StringID = ""
    · exact Or.inl hs
    · exact Or.inr (h.2.2 hs)
  | step k p hk ih =>
    have h := hfields k k.self_mem_chain
    have hp := hparent k k.self_mem_chain p hk
    have ihp : validLoop p = true := by
      apply ih
      · intro a ha
        exact hfields a (by rw [Key.chain_child k p hk]; exact List.mem_cons_of_mem _ ha)
      · intro a ha
        exact hparent a (by rw [Key.chain_child k p hk]; exact List.mem_cons_of_mem _ ha)
    rw [validLoop_child k p hk]
    simp only [ne_eq, not_and, not_not] at h
    simp [h.1, h.2.1, hp.1, hp.2, ihp]
    by_cases hs : k.StringID = ""
    · exact Or.inl hs
    · exact Or.inr (h.2.2 hs)

/-- Witness of C1 at a two-level chain: a complete root and an incomplete child. -/
theorem valid_of_wellFormed_witness :
    valid (some (Key.mk "Child" "" 0 (some (Key.mk "Root" "r" 0 none "app" "")) "app" ""))
      = true :=
  valid_of_wellFormed _ (by decide) (by
    intro a ha p hp
    simp only [Key.chain, List.mem_cons, List.mem_singleton, List.not_mem_nil, or_false] at ha
    rcases ha with rfl | rfl
    · simp only [Key.Parent, Option.some.injEq] at hp
      subst hp
      decide
    · simp [Key.Parent] at hp)

/-- C2: if `k` itself or any key of its ancestor chain has an empty kind or an empty
app id, then `valid k` is false, whatever the other fields of the chain are. -/
theorem valid_false_of_empty_kind_or_appID (k a : Key) (ha : a ∈ k.chain)
    (hempty : a.Kind = "" ∨ a.AppID = "") : valid (some k) = false := by
  show validLoop k = false
  induction k using Key.chain_induction with
  | root k hk =>
    rw [Key.chain_root k hk, List.mem_singleton] at ha
    subst ha
    rw [validLoop_root a hk]
    rcases hempty with h | h <;> simp [h]
  | step k p hk ih =>
    rw [Key.chain_child k p hk, List.mem_cons] at ha
    rw [validLoop_child k p hk]
    rcases ha with rfl | ha
    · rcases hempty with h | h <;> simp [h]
    · simp [ih ha]

/-- Witness of C2: the grandparent of a three-level chain has an empty kind. -/
theorem valid_false_of_empty_kind_or_appID_witness :
    valid (some (Key.mk "C" "" 7 (some (Key.mk "B" "b" 0
      (some (Key.mk "" "a" 0 none "app" "")) "app" "")) "app" "")) = false :=
  valid_false_of_empty_kind_or_appID _ (Key.mk "" "a" 0 none "app" "")
    (by simp [Key.chain]) (Or.inl rfl)

/-- C3: if some proper ancestor of `k` (parent, grandparent, ... up to the root) is
incomplete, that is has an empty string id and a zero int id, then `valid k` is false. -/
theorem valid_false_of_incomplete_ancestor (k a : Key) (ha : a ∈ k.ancestors)
    (hinc : a.StringID = "" ∧ a.IntID = 0) : valid (some k) = false := by
  show validLoop k = false
  induction k using Key.chain_induction with
  | root k hk =>
    rw [Key.ancestors_root k hk] at ha
    exact absurd ha (List.not_mem_nil a)
  | step k p hk ih =>
    rw [Key.ancestors_child k p hk, List.mem_cons] at ha
    rw [validLoop_child k p hk]
    rcases ha with rfl | ha
    · have : a.Incomplete = true := by simp [Key.Incomplete, hinc.1, hinc.2]
      simp [this]
    · simp [ih ha]

/-- Witness of C3: the root of a three-level chain is incomplete. -/
theorem valid_false_of_incomplete_ancestor_witness :
    valid (some (Key.mk "C" "" 7 (some (Key.mk "B" "b" 0
      (some (Key.mk "A" "" 0 none "app" "")) "app" "")) "app" "")) = false :=
  valid_false_of_incomplete_ancestor _ (Key.mk "A" "" 0 none "app" "")
    (by simp [Key.ancestors, Key.Parent, Key.chain]) ⟨rfl, rfl⟩

/-- C4: for every key `k` that `valid` accepts, every key of the ancestor chain of `k`
has the same app id as `k`; equivalently, an ancestor at any depth whose app id differs
from that of `k` makes `valid k` false. -/
theorem appID_eq_of_valid (k : Key) :
    (valid (some k) = true → ∀ a ∈ k.chain, a.AppID = k.AppID) ∧
    (∀ a ∈ k.chain, a.AppID ≠ k.AppID → valid (some k) = false) := by
  have key : validLoop k = true → ∀ a ∈ k.chain, a.AppID = k.AppID := by
    induction k using Key.chain_induction with
    | root k hk =>
      intro _ a ha
      rw [Key.chain_root k hk, List.mem_singleton] at ha
      rw [ha]
    | step k p hk ih =>
      intro hvalid a ha
      rw [Key.chain_child k p hk, List.mem_cons] at ha
      rw [validLoop_child k p hk] at hvalid
      simp only [Bool.and_eq_true, Bool.not_eq_true', bne_eq_false_iff_eq] at hvalid
      rcases ha with rfl | ha
      · rfl
      · rw [ih hvalid.2 a ha, hvalid.1.2]
  refine ⟨key, ?_⟩
  intro a ha hne
  cases hv : valid (some k) with
  | false => rfl
  | true => exact absurd (key hv a ha) hne

/-- Witness of C4: a valid three-level chain shares one app id, and a chain whose root
has another app id than the key is rejected. -/
theorem appID_eq_of_valid_witness :
    (∀ a ∈ (Key.mk "C" "" 7 (some (Key.mk "B" "b" 0
        (some (Key.mk "A" "a" 0 none "app" "")) "app" "")) "app" "").chain,
      a.AppID = "app") ∧
    valid (some (Key.mk "C" "" 7 (some (Key.mk "B" "b" 0
        (some (Key.mk "A" "a" 0 none "other" "")) "app" "")) "app" "")) = false :=
  ⟨(appID_eq_of_valid _).1 (by decide),
   (appID_eq_of_valid _).2 (Key.mk "A" "a" 0 none "other" "")
     (by simp [Key.chain]) (by decide)⟩

/-- C5: if `k` itself or any key of its ancestor chain has both a non-empty string id
and a non-zero int id, then `valid k` is false. -/
theorem valid_false_of_both_ids (k a : Key) (ha : a ∈ k.chain)
    (hboth : a.StringID ≠ "" ∧ a.IntID ≠ 0) : valid (some k) = false := by
  show validLoop k = false
  induction k using Key.chain_induction with
  | root k hk =>
    rw [Key.chain_root k hk, List.mem_singleton] at ha
    subst ha
    rw [validLoop_root a hk]
    simp [hboth.1, hboth.2]
  | step k p hk ih =>
    rw [Key.chain_child k p hk, List.mem_cons] at ha
    rw [validLoop_child k p hk]
    rcases ha with rfl | ha
    · simp [hboth.1, hboth.2]
    · simp [ih ha]

/-- Witness of C5: the parent of a two-level chain has both ids. -/
theorem valid_false_of_both_ids_witness :
    valid (some (Key.mk "C" "c" 0 (some (Key.mk "B" "b" 5 none "app" "")) "app" "")) = false :=
  valid_false_of_both_ids _ (Key.mk "B" "b" 5 none "app" "")
    (by simp [Key.chain]) (by decide)

/-- C6: `valid` applied to the nil key returns false; no field of a key is read. -/
theorem valid_nil : valid none = false := rfl

/-- C7: the incompleteness of the key itself never makes `valid` reject it. An incomplete
key `k` with a non-empty kind and a non-empty app id is valid when it has no parent,
and also when its parent is complete, has the app id of `k` and is itself valid. -/
theorem valid_of_incomplete (k : Key) (hinc : k.StringID = "" ∧ k.IntID = 0)
    (hkind : k.Kind ≠ "") (happ : k.AppID ≠ "") :
    (k.Parent = none → valid (some k) = true) ∧
    (∀ p, k.Parent = some p → p.Incomplete = false → p.AppID = k.AppID →
      valid (some p) = true → valid (some k) = true) := by
  constructor
  · intro hk
    show validLoop k = true
    rw [validLoop_root k hk]
    simp [hkind, happ, hinc.1]
  · intro p hk hcomplete hsame hp
    replace hp : validLoop p = true := hp
    show validLoop k = true
    rw [validLoop_child k p hk]
    simp [hkind, happ, hinc.1, hcomplete, hsame, hp]

/-- Witness of C7: an incomplete root key, and an incomplete child of a complete valid
parent. -/
theorem valid_of_incomplete_witness :
    valid (some (Key.mk "K" "" 0 none "app" "")) = true ∧
    valid (some (Key.mk "K" "" 0 (some (Key.mk "P" "" 42 none "app" "")) "app" "")) = true :=
  ⟨(valid_of_incomplete (Key.mk "K" "" 0 none "app" "") ⟨rfl, rfl⟩ (by decide)
      (by decide)).1 rfl,
   (valid_of_incomplete (Key.mk "K" "" 0 (some (Key.mk "P" "" 42 none "app" "")) "app" "")
      ⟨rfl, rfl⟩ (by decide) (by decide)).2 (Key.mk "P" "" 42 none "app" "") rfl
      (by decide) rfl (by decide)⟩

/-! ## The batch validator -/

theorem multiValidScan_eq_false_iff (key : List (Option Key)) :
    multiValidScan key = false ↔ ∀ k ∈ key, valid k = true := by
  induction key with
  | nil => simp [multiValidScan]
  | cons k ks ih =>
    cases hk : valid k <;> simp [multiValidScan, hk, ih]

theorem set_length_append (pre : List (Option Error)) (x y : Option Error)
    (rest : List (Option Error)) :
    (pre ++ x :: rest).set pre.length y = pre ++ y :: rest := by
  induction pre with
  | nil => rfl
  | cons a pre ih => simp [ih]

/-- The second loop, started at the end of an already filled part `pre` with nil
entries for the keys to come, stores one entry per key and leaves `pre` alone. -/
theorem multiValidFill_append (key : List (Option Key)) :
    ∀ pre : List (Option Error),
      multiValidFill (pre ++ List.replicate key.length none) pre.length key
        = pre ++ key.map invalidKeyOrNil := by
  induction key with
  | nil => intro pre; simp [multiValidFill]
  | cons k ks ih =>
    intro pre
    have hstep : (if (!valid k) = true
          then (pre ++ List.replicate (k :: ks).length none).set pre.length
            (some Error.ErrInvalidKey)
          else pre ++ List.replicate (k :: ks).length none)
        = (pre ++ [invalidKeyOrNil k]) ++ List.replicate ks.length none := by
      cases hk : valid k
      · simp [invalidKeyOrNil, hk, List.replicate_succ, set_length_append]
      · simp [invalidKeyOrNil, hk, List.replicate_succ]
    have hlen : pre.length + 1 = (pre ++ [invalidKeyOrNil k]).length := by simp
    rw [multiValidFill, hstep, hlen, ih]
    simp

theorem multiValidFill_eq_map (key : List (Option Key)) :
    multiValidFill (List.replicate key.length none) 0 key = key.map invalidKeyOrNil := by
  simpa using multiValidFill_append key []

/-- C8: `multiValid` returns nil if and only if `valid` holds for every key of the
list; in particular it returns nil for the empty list. -/
theorem multiValid_eq_nil_iff :
    (∀ key : List (Option Key), multiValid key = none ↔ ∀ k ∈ key, valid k = true) ∧
    multiValid [] = none := by
  refine ⟨?_, rfl⟩
  intro key
  rw [← multiValidScan_eq_false_iff]
  cases h : multiValidScan key <;> simp [multiValid, h]

/-- C9: for a key list with at least one key that `valid` rejects, `multiValid` returns a
MultiError as long as the input in which entry `i` is `ErrInvalidKey` if `valid`
rejects key `i` and nil if it accepts it. -/
theorem multiValid_of_invalid (key : List (Option Key))
    (hinvalid : ∃ k ∈ key, valid k = false) :
    ∃ errs : List (Option Error),
      multiValid key = some (Error.MultiError errs) ∧
      errs.length = key.length ∧
      ∀ (i : Nat) (k : Option Key), key[i]? = some k →
        (valid k = false → errs[i]? = some (some Error.ErrInvalidKey)) ∧
        (valid k = true → errs[i]? = some none) := by
  have hscan : multiValidScan key = true := by
    cases h : multiValidScan key with
    | true => rfl
    | false =>
      obtain ⟨k, hk, hv⟩ := hinvalid
      rw [(multiValidScan_eq_false_iff key).1 h k hk] at hv
      exact absurd hv (by decide)
  refine ⟨key.map invalidKeyOrNil, ?_, by simp, ?_⟩
  · simp [multiValid, hscan, multiValidFill_eq_map]
  · intro i k hik
    constructor <;> intro hv <;> simp [List.getElem?_map, hik, invalidKeyOrNil, hv]

/-- Witness of C9: a valid key, the nil key, and a key with an empty kind. -/
theorem multiValid_of_invalid_witness :
    ∃ errs : List (Option Error),
      multiValid [some (Key.mk "K" "" 0 none "app" ""), none,
          some (Key.mk "" "x" 0 none "app" "")] = some (Error.MultiError errs) ∧
      errs.length = 3 ∧
      ∀ (i : Nat) (k : Option Key), [some (Key.mk "K" "" 0 none "app" ""), none,
          some (Key.mk "" "x" 0 none "app" "")][i]? = some k →
        (valid k = false → errs[i]? = some (some Error.ErrInvalidKey)) ∧
        (valid k = true → errs[i]? = some none) :=
  multiValid_of_invalid _ ⟨none, by simp, rfl⟩

/-! ## The batch shape classifier -/

/-- C10: `checkMultiArg` applied to a value of the `PropertyList` type returns
`multiArgTypeInvalid` with a nil element type, although `PropertyList` is a slice
whose element type is a struct: the plain slice of `Property` is classified as a
struct slice. -/
theorem checkMultiArg_propertyList (v : Value) (htype : v.Type = some typeOfPropertyList) :
    checkMultiArg v = some (multiArgTypeInvalid, none) ∧
    typeOfPropertyList.Kind = reflect.Kind.Slice ∧
    (∃ e, typeOfPropertyList.Elem = some e ∧ e.Kind = reflect.Kind.Struct ∧
      checkMultiArg ⟨some (RType.slice e)⟩ = some (multiArgTypeStruct, some e)) := by
  cases v with
  | mk typ =>
    simp only [Value.Type] at htype
    subst htype
    refine ⟨by decide, by decide, datastore.Property, by decide, by decide, by decide⟩

/-- Witness of C10 at the nil `PropertyList` value. -/
theorem checkMultiArg_propertyList_witness :
    checkMultiArg ⟨some datastore.PropertyList⟩ = some (multiArgTypeInvalid, none) :=
  (checkMultiArg_propertyList ⟨some datastore.PropertyList⟩ rfl).1

/-- A type of kind Ptr has an element type. -/
theorem RType.elem_isSome_of_ptr (t : RType) (h : t.Kind = reflect.Kind.Ptr) :
    ∃ e, t.Elem = some e := by
  induction t with
  | basic b => cases b <;> simp [RType.Kind, Basic.kind] at h
  | ptr e _ => exact ⟨e, rfl⟩
  | defined _ _ u _ _ ih => exact ih h
  | _ => simp [RType.Kind] at h

/-- A type of kind Slice has an element type. -/
theorem RType.elem_isSome_of_slice (t : RType) (h : t.Kind = reflect.Kind.Slice) :
    ∃ e, t.Elem = some e := by
  induction t with
  | basic b => cases b <;> simp [RType.Kind, Basic.kind] at h
  | slice e _ => exact ⟨e, rfl⟩
  | defined _ _ u _ _ ih => exact ih h
  | _ => simp [RType.Kind] at h

/-- The pointer type to a type of kind Ptr has no methods. -/
theorem RType.ptrMethodSet_of_ptr (t : RType) (h : t.Kind = reflect.Kind.Ptr) :
    t.ptrMethodSet = [] := by
  cases t with
  | struct _ _ _ => simp [RType.Kind] at h
  | defined _ _ u _ _ =>
    simp only [RType.Kind] at h
    simp [RType.ptrMethodSet, h]
  | _ => rfl

/-- `Implements` never panics on `typeOfPropertyLoadSaver`, and holds exactly when both
methods are in the method set. -/
theorem implements_loadSaver (t : RType) :
    t.Implements typeOfPropertyLoadSaver =
      some (datastore.loadSaveMethods.all fun m => decide (m ∈ t.methodSet)) := rfl

theorem not_implements_of_ptr (e : RType) (h : e.Kind = reflect.Kind.Ptr) :
    (PtrTo e).Implements typeOfPropertyLoadSaver = some false := by
  rw [implements_loadSaver]
  simp [PtrTo, RType.methodSet, RType.ptrMethodSet_of_ptr e h, datastore.loadSaveMethods]

/-- Unfolding of `checkMultiArg` on a slice value other than `PropertyList`. -/
theorem checkMultiArg_slice (v : Value) (t e : RType) (htype : v.Type = some t)
    (hkind : t.Kind = reflect.Kind.Slice) (hne : t ≠ typeOfPropertyList)
    (helem : t.Elem = some e) :
    checkMultiArg v =
      match (PtrTo e).Implements typeOfPropertyLoadSaver with
      | none => none
      | some true => some (multiArgTypePropertyLoadSaver, some e)
      | some false =>
        match e.Kind with
        | .Struct => some (multiArgTypeStruct, some e)
        | .Interface => some (multiArgTypeInterface, some e)
        | .Ptr =>
          match e.Elem with
          | none => none
          | some s =>
            if s.Kind = reflect.Kind.Struct then some (multiArgTypeStructPtr, some s)
            else some (multiArgTypeInvalid, none)
        | _ => some (multiArgTypeInvalid, none) := by
  have hv : v.Kind = reflect.Kind.Slice := by
    cases v with
    | mk typ =>
      simp only [Value.Type] at htype
      subst htype
      exact hkind
  unfold checkMultiArg
  simp only [hv, ne_eq, not_true_eq_false, if_false, htype, hne, helem]

/-- C11: for every slice whose element type is a pointer to a struct type `S`,
`checkMultiArg` returns `multiArgTypeStructPtr` together with `S` itself, the pointee,
not the pointer type. -/
theorem checkMultiArg_structPtr (v : Value) (t e S : RType) (htype : v.Type = some t)
    (hslice : t.Kind = reflect.Kind.Slice) (helem : t.Elem = some e)
    (hptr : e.Kind = reflect.Kind.Ptr) (hpointee : e.Elem = some S)
    (hstruct : S.Kind = reflect.Kind.Struct) :
    checkMultiArg v = some (multiArgTypeStructPtr, some S) := by
  have hne : t ≠ typeOfPropertyList := by
    intro h
    subst h
    have : e = datastore.Property := by
      have h2 : typeOfPropertyList.Elem = some datastore.Property := rfl
      rw [h2] at helem
      exact (Option.some.inj helem).symm
    subst this
    exact absurd hptr (by decide)
  rw [checkMultiArg_slice v t e htype hslice hne helem, not_implements_of_ptr e hptr]
  simp [hptr, hpointee, hstruct]

/-- Witness of C11 at a slice of pointers to the struct type `datastore.Property`. -/
theorem checkMultiArg_structPtr_witness :
    checkMultiArg ⟨some (RType.slice (RType.ptr datastore.Property))⟩
      = some (multiArgTypeStructPtr, some datastore.Property) :=
  checkMultiArg_structPtr _ (RType.slice (RType.ptr datastore.Property))
    (RType.ptr datastore.Property) datastore.Property rfl rfl rfl rfl rfl rfl

/-- Every method of a type that is neither an interface nor a pointer is also a method
of the pointer type to it. -/
theorem RType.methodSet_subset_ptrMethodSet (t : RType)
    (hi : t.Kind ≠ reflect.Kind.Interface) (hp : t.Kind ≠ reflect.Kind.Ptr) :
    ∀ m ∈ t.methodSet, m ∈ t.ptrMethodSet := by
  induction t with
  | interface _ => simp [RType.Kind] at hi
  | ptr _ _ => simp [RType.Kind] at hp
  | struct _ promoted ptrPromoted =>
    intro m hm
    simp only [RType.methodSet] at hm
    simp [RType.ptrMethodSet, hm]
  | defined _ _ u methods ptrMethods ih =>
    simp only [RType.Kind] at hi hp
    intro m hm
    have h1 : m ∈ methods ∨ m ∈ u.methodSet := by
      simp only [RType.methodSet] at hm
      exact List.mem_append.1 hm
    have h2 : m ∈ methods ++ ptrMethods ++ u.ptrMethodSet := by
      rcases h1 with h | h
      · simp [h]
      · simp [ih hi hp m h]
    simp only [RType.ptrMethodSet]
    exact h2
  | _ => intro m hm; simp [RType.methodSet] at hm

/-- If a type that is neither an interface nor a pointer implements
`PropertyLoadSaver`, so does the pointer type to it. -/
theorem ptr_implements_of_implements (e : RType)
    (hi : e.Kind ≠ reflect.Kind.Interface) (hp : e.Kind ≠ reflect.Kind.Ptr)
    (himpl : e.Implements typeOfPropertyLoadSaver = some true) :
    (PtrTo e).Implements typeOfPropertyLoadSaver = some true := by
  rw [implements_loadSaver] at himpl ⊢
  simp only [Option.some.injEq, List.all_eq_true, decide_eq_true_eq] at himpl ⊢
  intro m hm
  exact RType.methodSet_subset_ptrMethodSet e hi hp m (himpl m hm)

/-- C12, as stated, fails. The interface type `PropertyLoadSaver` implements itself, but
the slice of it is classified `multiArgTypeInterface`; the pointer type to the test
struct `PropertyLoadSaver` implements the interface, but the slice of such pointers is
classified `multiArgTypeStructPtr` with the struct type. -/
theorem checkMultiArg_loadSaver_counterexample :
    (datastore.PropertyLoadSaver.Implements typeOfPropertyLoadSaver = some true ∧
      RType.slice datastore.PropertyLoadSaver ≠ typeOfPropertyList ∧
      checkMultiArg ⟨some (RType.slice datastore.PropertyLoadSaver)⟩
        = some (multiArgTypeInterface, some datastore.PropertyLoadSaver)) ∧
    ((RType.ptr test.PropertyLoadSaver).Implements typeOfPropertyLoadSaver = some true ∧
      RType.slice (RType.ptr test.PropertyLoadSaver) ≠ typeOfPropertyList ∧
      checkMultiArg ⟨some (RType.slice (RType.ptr test.PropertyLoadSaver))⟩
        = some (multiArgTypeStructPtr, some test.PropertyLoadSaver)) ∧
    multiArgTypeInterface ≠ multiArgTypePropertyLoadSaver ∧
    multiArgTypeStructPtr ≠ multiArgTypePropertyLoadSaver := by
  decide

/-- C12, amended: for every slice other than `PropertyList` such that the pointer type
to its element type implements `PropertyLoadSaver`, or such that its element type is
neither an interface nor a pointer and implements `PropertyLoadSaver`, `checkMultiArg`
returns `multiArgTypePropertyLoadSaver` together with the element type of the slice,
whatever the kind of the element type is. -/
theorem checkMultiArg_loadSaver (v : Value) (t e : RType) (htype : v.Type = some t)
    (hslice : t.Kind = reflect.Kind.Slice) (hne : t ≠ typeOfPropertyList)
    (helem : t.Elem = some e)
    (himpl : (PtrTo e).Implements typeOfPropertyLoadSaver = some true ∨
      (e.Kind ≠ reflect.Kind.Interface ∧ e.Kind ≠ reflect.Kind.Ptr ∧
        e.Implements typeOfPropertyLoadSaver = some true)) :
    checkMultiArg v = some (multiArgTypePropertyLoadSaver, some e) := by
  have hptr : (PtrTo e).Implements typeOfPropertyLoadSaver = some true := by
    rcases himpl with h | ⟨hi, hp, h⟩
    · exact h
    · exact ptr_implements_of_implements e hi hp h
  rw [checkMultiArg_slice v t e htype hslice hne helem, hptr]

/-- Witness of C12, amended: the slice of the test struct `PropertyLoadSaver`, whose
pointer type has `Load` and `Save`, and the slice of a struct type that has the two
methods on the value receiver. -/
theorem checkMultiArg_loadSaver_witness :
    checkMultiArg ⟨some (RType.slice test.PropertyLoadSaver)⟩
      = some (multiArgTypePropertyLoadSaver, some test.PropertyLoadSaver) ∧
    checkMultiArg ⟨some (RType.slice (RType.defined "main" "V" (RType.struct "" [] [])
        datastore.loadSaveMethods []))⟩
      = some (multiArgTypePropertyLoadSaver, some (RType.defined "main" "V"
          (RType.struct "" [] []) datastore.loadSaveMethods [])) :=
  ⟨checkMultiArg_loadSaver _ (RType.slice test.PropertyLoadSaver) test.PropertyLoadSaver
      rfl rfl (by decide) rfl (Or.inl (by decide)),
   checkMultiArg_loadSaver _ (RType.slice (RType.defined "main" "V" (RType.struct "" [] [])
        datastore.loadSaveMethods [])) _ rfl rfl (by decide) rfl
      (Or.inr ⟨by decide, by decide, by decide⟩)⟩

/-- C17: the two-pass `multiValid` returns, for every key list, the same result as the
one-pass reference; so any aggregate it returns holds at least one non-nil entry. -/
theorem multiValid_eq_ref :
    (∀ key : List (Option Key), multiValid key = multiValidRef key) ∧
    (∀ (key : List (Option Key)) (errs : List (Option Error)),
      multiValid key = some (Error.MultiError errs) → ∃ e ∈ errs, e ≠ none) := by
  have hall : ∀ key : List (Option Key),
      (key.map invalidKeyOrNil).all Option.isNone = !multiValidScan key := by
    intro key
    induction key with
    | nil => rfl
    | cons k ks ih =>
      cases hk : valid k
      · simp [multiValidScan, invalidKeyOrNil, hk]
      · simpa [multiValidScan, invalidKeyOrNil, hk] using ih
  have href : ∀ key : List (Option Key), multiValid key = multiValidRef key := by
    intro key
    simp only [multiValid, multiValidRef, multiValidFill_eq_map, hall]
  refine ⟨href, ?_⟩
  intro key errs h
  rw [href] at h
  simp only [multiValidRef] at h
  split at h
  · exact absurd h (by simp)
  · rename_i hnot
    simp only [Option.some.injEq, Error.MultiError.injEq] at h
    subst h
    simp only [List.all_eq_true, not_forall] at hnot
    obtain ⟨e, he, hne⟩ := hnot
    refine ⟨e, he, ?_⟩
    intro h0
    exact hne (by simp [h0])

/-- C18: `checkMultiArg` follows its decision list. A non-slice value gives
`(multiArgTypeInvalid, nil)`. For a slice other than `PropertyList` whose
pointer-to-element type does not implement `PropertyLoadSaver`: a struct element type
gives `multiArgTypeStruct` with it, an interface element type gives
`multiArgTypeInterface` with it, and every other element type that is not a pointer to
a struct gives `(multiArgTypeInvalid, nil)`. -/
theorem checkMultiArg_decision_list :
    (∀ v : Value, v.Kind ≠ reflect.Kind.Slice →
      checkMultiArg v = some (multiArgTypeInvalid, none)) ∧
    (∀ (v : Value) (t e : RType), v.Type = some t → t.Kind = reflect.Kind.Slice →
      t ≠ typeOfPropertyList → t.Elem = some e →
      (PtrTo e).Implements typeOfPropertyLoadSaver = some false →
      (e.Kind = reflect.Kind.Struct →
        checkMultiArg v = some (multiArgTypeStruct, some e)) ∧
      (e.Kind = reflect.Kind.Interface →
        checkMultiArg v = some (multiArgTypeInterface, some e)) ∧
      (e.Kind ≠ reflect.Kind.Struct → e.Kind ≠ reflect.Kind.Interface →
        ¬(e.Kind = reflect.Kind.Ptr ∧ ∃ S, e.Elem = some S ∧ S.Kind = reflect.Kind.Struct) →
        checkMultiArg v = some (multiArgTypeInvalid, none))) := by
  constructor
  · intro v hv
    simp [checkMultiArg, hv]
  · intro v t e htype hslice hne helem himpl
    rw [checkMultiArg_slice v t e htype hslice hne helem]
    simp only [himpl]
    refine ⟨fun h => by simp [h], fun h => by simp [h], ?_⟩
    intro hs hi hps
    by_cases hp : e.Kind = reflect.Kind.Ptr
    · obtain ⟨S, hS⟩ := RType.elem_isSome_of_ptr e hp
      have hSk : S.Kind ≠ reflect.Kind.Struct := fun h => hps ⟨hp, S, hS, h⟩
      simp [hp, hS, hSk]
    · split
      · exact absurd (by assumption) hs
      · exact absurd (by assumption) hi
      · exact absurd (by assumption) hp
      · rfl

/-- Witness of C18: an int value, a slice of the test struct, a slice of the empty
interface, a slice of ints and a slice of pointers to int. -/
theorem checkMultiArg_decision_list_witness :
    checkMultiArg ⟨some (RType.basic Basic.int)⟩ = some (multiArgTypeInvalid, none) ∧
    checkMultiArg ⟨some (RType.slice test.Struct)⟩
      = some (multiArgTypeStruct, some test.Struct) ∧
    checkMultiArg ⟨some (RType.slice (RType.interface []))⟩
      = some (multiArgTypeInterface, some (RType.interface [])) ∧
    checkMultiArg ⟨some (RType.slice (RType.basic Basic.int))⟩
      = some (multiArgTypeInvalid, none) ∧
    checkMultiArg ⟨some (RType.slice (RType.ptr (RType.basic Basic.int)))⟩
      = some (multiArgTypeInvalid, none) :=
  ⟨checkMultiArg_decision_list.1 _ (by decide),
   (checkMultiArg_decision_list.2 _ (RType.slice test.Struct) test.Struct rfl rfl
      (by decide) rfl (by decide)).1 (by decide),
   (checkMultiArg_decision_list.2 _ (RType.slice (RType.interface [])) (RType.interface [])
      rfl rfl (by decide) rfl (by decide)).2.1 (by decide),
   (checkMultiArg_decision_list.2 _ (RType.slice (RType.basic Basic.int))
      (RType.basic Basic.int) rfl rfl (by decide) rfl (by decide)).2.2
      (by decide) (by decide) (by decide),
   (checkMultiArg_decision_list.2 _ (RType.slice (RType.ptr (RType.basic Basic.int)))
      (RType.ptr (RType.basic Basic.int)) rfl rfl (by decide) rfl (by decide)).2.2
      (by decide) (by decide) (by
        rintro ⟨_, S, hS, hk⟩
        simp only [RType.Elem, Option.some.injEq] at hS
        subst hS
        exact absurd hk (by decide))⟩

theorem validLoop_not_both (k : Key) (h : validLoop k = true) :
    ¬(k.StringID ≠ "" ∧ k.IntID ≠ 0) := by
  cases hp : k.Parent with
  | none =>
    rw [validLoop_root k hp] at h
    simp only [Bool.and_eq_true, Bool.not_eq_true', Bool.and_eq_false_iff, bne_eq_false_iff_eq]
      at h
    intro hb
    rcases h.2 with h2 | h2
    · exact hb.1 h2
    · exact hb.2 h2
  | some p =>
    rw [validLoop_child k p hp] at h
    simp only [Bool.and_eq_true, Bool.not_eq_true', Bool.and_eq_false_iff, bne_eq_false_iff_eq]
      at h
    intro hb
    rcases h.1.1.1.2 with h2 | h2
    · exact hb.1 h2
    · exact hb.2 h2

theorem validRec_root (k : Key) (h : k.Parent = none) :
    validRec k = ((k.Kind != "" && k.AppID != "") && !(k.StringID != "" && k.IntID != 0)) := by
  cases k with
  | mk kind sid iid parent app ns =>
    cases parent with
    | none => rfl
    | some p => simp [Key.Parent] at h

theorem validRec_child (k p : Key) (h : k.Parent = some p) :
    validRec k = (((k.Kind != "" && k.AppID != "") && !(k.StringID != "" && k.IntID != 0)) &&
      (!p.Incomplete && p.AppID == k.AppID && validRec p)) := by
  cases k with
  | mk kind sid iid parent app ns =>
    cases parent with
    | none => simp [Key.Parent] at h
    | some q =>
      simp only [Key.Parent, Option.some.injEq] at h
      subst h
      rfl

theorem validLoop_eq_validRec (k : Key) : validLoop k = validRec k := by
  induction k using Key.chain_induction with
  | root k hk =>
    rw [validLoop_root k hk, validRec_root k hk]
    simp only [bne]
    generalize (k.Kind == "") = a
    generalize (k.AppID == "") = b
    generalize (!(k.StringID == "") && !(k.IntID == 0)) = c
    cases a <;> cases b <;> cases c <;> rfl
  | step k p hk ih =>
    rw [validLoop_child k p hk, validRec_child k p hk, ih]
    simp only [bne]
    generalize (k.Kind == "") = a
    generalize (k.AppID == "") = b
    generalize (!(k.StringID == "") && !(k.IntID == 0)) = c
    generalize p.Incomplete = d
    generalize (p.AppID == k.AppID) = e
    generalize validRec p = f
    cases a <;> cases b <;> cases c <;> cases d <;> cases e <;> cases f <;> rfl

/-- C19: validity is inherited upwards. For every key `k` that `valid` accepts, every
proper ancestor is accepted by `valid` and is complete with exactly one of a non-empty
string id or a non-zero int id; and `valid k` equals the recursive definition. -/
theorem valid_inherited :
    (∀ k : Key, valid (some k) = true → ∀ a ∈ k.ancestors,
      valid (some a) = true ∧ a.Incomplete = false ∧
      ((a.StringID ≠ "" ∧ a.IntID = 0) ∨ (a.StringID = "" ∧ a.IntID ≠ 0))) ∧
    (∀ k : Key, valid (some k) = validRec k) := by
  refine ⟨?_, validLoop_eq_validRec⟩
  intro k
  show validLoop k = true → _
  induction k using Key.chain_induction with
  | root k hk =>
    intro _ a ha
    rw [Key.ancestors_root k hk] at ha
    exact absurd ha (List.not_mem_nil a)
  | step k p hk ih =>
    intro hv a ha
    rw [validLoop_child k p hk] at hv
    simp only [Bool.and_eq_true, Bool.not_eq_true'] at hv
    rw [Key.ancestors_child k p hk, List.mem_cons] at ha
    rcases ha with rfl | ha
    · refine ⟨hv.2, hv.1.1.2, ?_⟩
      have hnb := validLoop_not_both a hv.2
      have hinc := hv.1.1.2
      simp only [Key.Incomplete, Bool.and_eq_false_iff, beq_eq_false_iff_ne, ne_eq] at hinc
      by_cases hs : a.StringID = ""
      · right
        refine ⟨hs, ?_⟩
        rcases hinc with h | h
        · exact absurd hs h
        · exact h
      · left
        refine ⟨hs, ?_⟩
        by_contra hi
        exact hnb ⟨hs, hi⟩
    · exact ih hv.2 a ha

/-- Witness of C19 at a valid three-level chain. -/
theorem valid_inherited_witness :
    (∀ a ∈ (Key.mk "C" "" 0 (some (Key.mk "B" "b" 0
        (some (Key.mk "A" "" 5 none "app" "")) "app" "")) "app" "").ancestors,
      valid (some a) = true ∧ a.Incomplete = false ∧
      ((a.StringID ≠ "" ∧ a.IntID = 0) ∨ (a.StringID = "" ∧ a.IntID ≠ 0))) ∧
    valid (some (Key.mk "C" "" 0 (some (Key.mk "B" "b" 0
        (some (Key.mk "A" "" 5 none "app" "")) "app" "")) "app" ""))
      = validRec (Key.mk "C" "" 0 (some (Key.mk "B" "b" 0
        (some (Key.mk "A" "" 5 none "app" "")) "app" "")) "app" "") :=
  ⟨valid_inherited.1 _ (by decide), valid_inherited.2 _⟩

/-! ## The single-item coordinator -/

section SingleItem

variable {R E : Type}

theorem validLoop_withIntID (k : Key) (n : Int) (h : k.StringID = "") :
    validLoop (k.withIntID n) = validLoop k := by
  cases k with
  | mk kind sid iid parent app ns =>
    simp only [Key.StringID] at h
    subst h
    cases parent <;> simp [validLoop, Key.withIntID, Key.Kind, Key.AppID, Key.StringID]

theorem tableSet_same (t : Table E) (p : List PathElem) (e : E) : tableSet t p e p = some e := by
  simp [tableSet]

theorem tableRemove_same (t : Table E) (p : List PathElem) : tableRemove t p p = none := by
  simp [tableRemove]

/-- What a successful `Put` leaves behind: a valid final identifier when the identifier
was valid, the saved record in the store, and also in the cache if the cache served
the write. -/
theorem put_ok (b : Binding R E) (env : Env) (s s1 : State E) (id final : Key) (r : R)
    (hput : Put b env s (some id) r = (s1, .ok final)) :
    (valid (some id) = true → valid (some final) = true) ∧
    s1.store (fingerprint final) = some (b.save r) ∧
    (env.cacheUp = true → s1.cache (fingerprint final) = some (b.save r)) := by
  simp only [Put, storePut] at hput
  split at hput
  · simp at hput
  · cases henv : env.storeErr with
    | some err => simp [henv] at hput
    | none =>
      simp only [henv, Prod.mk.injEq, Except.ok.injEq] at hput
      obtain ⟨hs, hf⟩ := hput
      subst hf
      subst hs
      refine ⟨?_, ?_, ?_⟩
      · intro hv
        by_cases hinc : id.Incomplete = true
        · simp only [hinc, if_true]
          have hsid : id.StringID = "" := by
            simp only [Key.Incomplete, Bool.and_eq_true, beq_iff_eq] at hinc
            exact hinc.1
          show validLoop _ = true
          rw [validLoop_withIntID id _ hsid]
          exact hv
        · simp only [hinc]
          exact hv
      · cases hup : env.cacheUp <;> simp [cacheSet, hup, tableSet_same]
      · intro hup
        simp [cacheSet, hup, tableSet_same]

/-- A valid identifier whose fingerprint is in a serving cache is read from the cache. -/
theorem get_of_cache (b : Binding R E) (env : Env) (s : State E) (k : Key) (e : E)
    (hv : valid (some k) = true) (hup : env.cacheUp = true)
    (hc : s.cache (fingerprint k) = some e) :
    (Get b env s (some k)).2 = .ok (b.load e) := by
  simp [Get, hv, cacheGet, hup, hc]

/-- A valid identifier that the cache does not answer is read from a serving store. -/
theorem get_of_store (b : Binding R E) (env : Env) (s : State E) (k : Key) (e : E)
    (hv : valid (some k) = true)
    (hmiss : env.cacheUp = false ∨ s.cache (fingerprint k) = none)
    (hserve : env.storeErr = none) (hs : s.store (fingerprint k) = some e) :
    (Get b env s (some k)).2 = .ok (b.load e) := by
  have hc : cacheGet env s (fingerprint k) = none := by
    rcases hmiss with h | h <;> simp [cacheGet, h]
  simp [Get, hv, hc, storeGet, hserve, hs]

/-- A valid identifier that neither the cache nor a serving store holds is not found. -/
theorem get_not_found (b : Binding R E) (env : Env) (s : State E) (k : Key)
    (hv : valid (some k) = true)
    (hmiss : env.cacheUp = false ∨ s.cache (fingerprint k) = none)
    (hserve : env.storeErr = none) (hs : s.store (fingerprint k) = none) :
    (Get b env s (some k)).2 = .error Error.ErrNoSuchEntity := by
  have hc : cacheGet env s (fingerprint k) = none := by
    rcases hmiss with h | h <;> simp [cacheGet, h]
  simp [Get, hv, hc, storeGet, hserve, hs]

/-- What a successful `Delete` leaves behind: the identifier was valid, the store holds
no entity for it, and the cache holds no entry for it if the cache served the
removal. -/
theorem delete_ok (env : Env) (s s1 : State E) (id : Key)
    (hdel : Delete env s (some id) = (s1, none)) :
    valid (some id) = true ∧ s1.store (fingerprint id) = none ∧
    (env.cacheUp = true → s1.cache (fingerprint id) = none) := by
  simp only [Delete, storeDelete] at hdel
  split at hdel
  · rename_i hv
    cases henv : env.storeErr with
    | some err => simp [henv] at hdel
    | none =>
      simp only [henv, Prod.mk.injEq, and_true] at hdel
      subst hdel
      refine ⟨hv, ?_, ?_⟩
      · cases hup : env.cacheUp <;> simp [cacheDelete, hup, removeEntity, tableRemove_same]
      · intro hup
        simp [cacheDelete, hup, removeEntity, tableRemove_same]
  · simp at hdel

/-- C13, as stated, fails: a `Put` whose cache write is not served succeeds and leaves
the older cache entry in place, so the following `Get` returns the older record. Here
the record 1 is put under a complete key, then the record 2 with the cache down; the
read returns 1. -/
theorem put_get_counterexample :
    (Put test.structBinding ⟨none, false⟩
        (Put test.structBinding Env.healthy State.empty
          (some (Key.mk "Struct" "" 1 none "testapp" "")) 1).1
        (some (Key.mk "Struct" "" 1 none "testapp" "")) 2).2
      = .ok (Key.mk "Struct" "" 1 none "testapp" "") ∧
    (Get test.structBinding Env.healthy
        (Put test.structBinding ⟨none, false⟩
          (Put test.structBinding Env.healthy State.empty
            (some (Key.mk "Struct" "" 1 none "testapp" "")) 1).1
          (some (Key.mk "Struct" "" 1 none "testapp" "")) 2).1
        (some (Key.mk "Struct" "" 1 none "testapp" ""))).2 = .ok 1 ∧
    (Get test.structBinding Env.healthy
        (Put test.structBinding ⟨none, false⟩
          (Put test.structBinding Env.healthy State.empty
            (some (Key.mk "Struct" "" 1 none "testapp" "")) 1).1
          (some (Key.mk "Struct" "" 1 none "testapp" "")) 2).1
        (some (Key.mk "Struct" "" 1 none "testapp" ""))).2 ≠ .ok 2 :=
  ⟨rfl, rfl, fun h => absurd (Except.ok.inj h) (by decide)⟩

/-- C13, amended: for every record `r` and valid identifier `id` for which `Put`
succeeds with its cache write served and returns `final`, a following `Get` of `final`
succeeds and leaves the out-record equal to `load (save r)`, which is `r` for a record
type whose load undoes its save: with the cache entry present whenever the cache or
the store serves the read, and with the cache entry removed directly whenever the
store serves the read. -/
theorem put_get_roundtrip (b : Binding R E) (envPut : Env) (s s1 : State E)
    (id final : Key) (r : R)
    (hput : Put b envPut s (some id) r = (s1, .ok final))
    (hvalid : valid (some id) = true) (hcache : envPut.cacheUp = true) :
    (∀ envGet : Env, envGet.cacheUp = true ∨ envGet.storeErr = none →
      (Get b envGet s1 (some final)).2 = .ok (b.load (b.save r))) ∧
    (∀ envGet : Env, envGet.storeErr = none →
      (Get b envGet (cacheDelete Env.healthy s1 (fingerprint final)) (some final)).2
        = .ok (b.load (b.save r))) := by
  obtain ⟨hv, hstore, hc⟩ := put_ok b envPut s s1 id final r hput
  constructor
  · intro envGet henv
    cases hup : envGet.cacheUp with
    | true => exact get_of_cache b envGet s1 final _ (hv hvalid) hup (hc hcache)
    | false =>
      rcases henv with h | h
      · rw [hup] at h
        exact absurd h (by decide)
      · exact get_of_store b envGet s1 final _ (hv hvalid) (Or.inl hup) h hstore
  · intro envGet henv
    apply get_of_store b envGet _ final _ (hv hvalid) (Or.inr ?_) henv
    · simpa [cacheDelete, Env.healthy] using hstore
    · simp [cacheDelete, Env.healthy, tableRemove_same]

/-- Witness of C13, amended: the flow of `TestWithStruct` and `TestGetFromDatastore`, a
struct put under an incomplete key and read back, from the cache, from the store with
the cache down, and from the store after the cache entry was removed. -/
theorem put_get_roundtrip_witness :
    (Get test.structBinding Env.healthy
        (Put test.structBinding Env.healthy State.empty
          (some (test.newIncompleteKey "Struct")) 3).1
        (some ((test.newIncompleteKey "Struct").withIntID 1))).2 = .ok 3 ∧
    (Get test.structBinding ⟨none, false⟩
        (Put test.structBinding Env.healthy State.empty
          (some (test.newIncompleteKey "Struct")) 3).1
        (some ((test.newIncompleteKey "Struct").withIntID 1))).2 = .ok 3 ∧
    (Get test.structBinding Env.healthy
        (cacheDelete Env.healthy
          (Put test.structBinding Env.healthy State.empty
            (some (test.newIncompleteKey "Struct")) 3).1
          (fingerprint ((test.newIncompleteKey "Struct").withIntID 1)))
        (some ((test.newIncompleteKey "Struct").withIntID 1))).2 = .ok 3 :=
  ⟨(put_get_roundtrip test.structBinding Env.healthy State.empty _
      (test.newIncompleteKey "Struct") ((test.newIncompleteKey "Struct").withIntID 1) 3
      rfl (by decide) rfl).1 Env.healthy (Or.inl rfl),
   (put_get_roundtrip test.structBinding Env.healthy State.empty _
      (test.newIncompleteKey "Struct") ((test.newIncompleteKey "Struct").withIntID 1) 3
      rfl (by decide) rfl).1 ⟨none, false⟩ (Or.inr rfl),
   (put_get_roundtrip test.structBinding Env.healthy State.empty _
      (test.newIncompleteKey "Struct") ((test.newIncompleteKey "Struct").withIntID 1) 3
      rfl (by decide) rfl).2 Env.healthy rfl⟩

/-- C14, as stated, fails for a record with the custom load/save capability: the cache
entry is what `Save` produced and the read runs `Load` on it. For the test struct
`PropertyLoadSaver` put with an empty `S` and then removed from the store directly, the
read from the cache leaves `S` equal to `".save.load"`, as
`TestWithPropertyLoadSaver` expects of a read after a write. -/
theorem get_from_cache_counterexample :
    (Put test.loadSaverBinding Env.healthy State.empty
        (some (test.newIncompleteKey "PropertyLoadSaver")) "").2
      = .ok ((test.newIncompleteKey "PropertyLoadSaver").withIntID 1) ∧
    (Get test.loadSaverBinding Env.healthy
        (removeEntity
          (Put test.loadSaverBinding Env.healthy State.empty
            (some (test.newIncompleteKey "PropertyLoadSaver")) "").1
          ((test.newIncompleteKey "PropertyLoadSaver").withIntID 1))
        (some ((test.newIncompleteKey "PropertyLoadSaver").withIntID 1))).2
      = .ok ".save.load" ∧
    (Get test.loadSaverBinding Env.healthy
        (removeEntity
          (Put test.loadSaverBinding Env.healthy State.empty
            (some (test.newIncompleteKey "PropertyLoadSaver")) "").1
          ((test.newIncompleteKey "PropertyLoadSaver").withIntID 1))
        (some ((test.newIncompleteKey "PropertyLoadSaver").withIntID 1))).2
      ≠ .ok "" :=
  ⟨rfl, rfl, fun h => absurd (Except.ok.inj h) (by decide)⟩

/-- C14, amended: after a `Put` of `r` under a valid identifier that succeeds with its
cache write served and returns `final`, if the entity is then removed from the
persistent store directly while the cache entry is still present, a `Get` of `final`
whose cache lookup is served still succeeds and leaves the out-record equal to
`load (save r)`, which is `r` for a record type whose load undoes its save, read from
the cache. -/
theorem get_from_cache (b : Binding R E) (envPut : Env) (s s1 : State E)
    (id final : Key) (r : R)
    (hput : Put b envPut s (some id) r = (s1, .ok final))
    (hvalid : valid (some id) = true) (hcache : envPut.cacheUp = true) :
    (removeEntity s1 final).store (fingerprint final) = none ∧
    ∀ envGet : Env, envGet.cacheUp = true →
      Get b envGet (removeEntity s1 final) (some final)
        = (removeEntity s1 final, .ok (b.load (b.save r))) := by
  obtain ⟨hv, _, hc⟩ := put_ok b envPut s s1 id final r hput
  refine ⟨by simp [removeEntity, tableRemove_same], ?_⟩
  intro envGet hup
  have hcr : (removeEntity s1 final).cache (fingerprint final) = some (b.save r) := hc hcache
  simp [Get, hv hvalid, cacheGet, hup, hcr]

/-- Witness of C14, amended: the flow of `TestGetFromMemcache`. -/
theorem get_from_cache_witness :
    Get test.structBinding Env.healthy
        (removeEntity
          (Put test.structBinding Env.healthy State.empty
            (some (test.newIncompleteKey "Struct")) 3).1
          ((test.newIncompleteKey "Struct").withIntID 1))
        (some ((test.newIncompleteKey "Struct").withIntID 1))
      = (removeEntity
          (Put test.structBinding Env.healthy State.empty
            (some (test.newIncompleteKey "Struct")) 3).1
          ((test.newIncompleteKey "Struct").withIntID 1), .ok 3) :=
  (get_from_cache test.structBinding Env.healthy State.empty _
    (test.newIncompleteKey "Struct") ((test.newIncompleteKey "Struct").withIntID 1) 3
    rfl (by decide) rfl).2 Env.healthy rfl

/-- C15, as stated, fails: a `Delete` whose cache removal is not served still returns
successfully and leaves the cache entry in place, so the following `Get` is served from
the cache. Here a struct is put, deleted with the cache down, and read back. -/
theorem delete_get_counterexample :
    (Delete ⟨none, false⟩
        (Put test.structBinding Env.healthy State.empty
          (some (test.newIncompleteKey "Struct")) 3).1
        (some ((test.newIncompleteKey "Struct").withIntID 1))).2 = none ∧
    (Get test.structBinding Env.healthy
        (Delete ⟨none, false⟩
          (Put test.structBinding Env.healthy State.empty
            (some (test.newIncompleteKey "Struct")) 3).1
          (some ((test.newIncompleteKey "Struct").withIntID 1))).1
        (some ((test.newIncompleteKey "Struct").withIntID 1))).2 = .ok 3 :=
  ⟨rfl, rfl⟩

/-- C15, amended: after `Delete` of an identifier returns successfully with its cache
removal served, a `Get` of the identifier that the store serves returns the not-found
error of the store: the entity is then neither in the store nor in the cache. -/
theorem delete_get_not_found (b : Binding R E) (envDelete : Env) (s s1 : State E) (id : Key)
    (hdel : Delete envDelete s (some id) = (s1, none))
    (hcache : envDelete.cacheUp = true) :
    s1.store (fingerprint id) = none ∧ s1.cache (fingerprint id) = none ∧
    ∀ envGet : Env, envGet.storeErr = none →
      (Get b envGet s1 (some id)).2 = .error Error.ErrNoSuchEntity := by
  obtain ⟨hv, hstore, hc⟩ := delete_ok envDelete s s1 id hdel
  refine ⟨hstore, hc hcache, ?_⟩
  intro envGet henv
  exact get_not_found b envGet s1 id hv (Or.inr (hc hcache)) henv hstore

/-- Witness of C15, amended: the end of `TestWithStruct`, the struct put, deleted and
read. -/
theorem delete_get_not_found_witness :
    (Get test.structBinding Env.healthy
        (Delete Env.healthy
          (Put test.structBinding Env.healthy State.empty
            (some (test.newIncompleteKey "Struct")) 3).1
          (some ((test.newIncompleteKey "Struct").withIntID 1))).1
        (some ((test.newIncompleteKey "Struct").withIntID 1))).2
      = .error Error.ErrNoSuchEntity :=
  (delete_get_not_found test.structBinding Env.healthy _ _
    ((test.newIncompleteKey "Struct").withIntID 1) rfl rfl).2.2 Env.healthy rfl

end SingleItem

/-! ## The multi-item coordinator -/

section MultiItem

variable {R E : Type}

theorem Key.withIntID_intID (k : Key) (n : Int) : (k.withIntID n).IntID = n := by
  cases k; rfl

theorem fingerprint_intID (f g : Key) (h : fingerprint f = fingerprint g) :
    f.IntID = g.IntID := by
  simp only [fingerprint, Key.chain_eq_cons_ancestors f, Key.chain_eq_cons_ancestors g,
    List.map_cons, List.cons.injEq, Prod.mk.injEq] at h
  exact h.1.2.2.1

theorem completeAll_length (ks : List Key) :
    ∀ n : Nat, (completeAll n ks).1.length = ks.length := by
  induction ks with
  | nil => intro n; rfl
  | cons k ks ih =>
    intro n
    simp only [completeAll]
    split <;> simp [ih]

theorem completeAll_valid (ks : List Key) (hinc : ∀ k ∈ ks, k.Incomplete = true)
    (hvalid : ∀ k ∈ ks, valid (some k) = true) :
    ∀ n : Nat, ∀ f ∈ (completeAll n ks).1, valid (some f) = true := by
  induction ks with
  | nil => intro n f hf; simp [completeAll] at hf
  | cons k ks ih =>
    intro n f hf
    have hk := hinc k (List.mem_cons_self k ks)
    simp only [completeAll, hk, if_true, List.mem_cons] at hf
    rcases hf with rfl | hf
    · have hsid : k.StringID = "" := by
        simp only [Key.Incomplete, Bool.and_eq_true, beq_iff_eq] at hk
        exact hk.1
      show validLoop _ = true
      rw [validLoop_withIntID k _ hsid]
      exact hvalid k (List.mem_cons_self k ks)
    · exact ih (fun a ha => hinc a (List.mem_cons_of_mem _ ha))
        (fun a ha => hvalid a (List.mem_cons_of_mem _ ha)) (n + 1) f hf

theorem completeAll_intID_gt (ks : List Key) (hinc : ∀ k ∈ ks, k.Incomplete = true) :
    ∀ n : Nat, ∀ f ∈ (completeAll n ks).1, (n : Int) < f.IntID := by
  induction ks with
  | nil => intro n f hf; simp [completeAll] at hf
  | cons k ks ih =>
    intro n f hf
    have hk := hinc k (List.mem_cons_self k ks)
    simp only [completeAll, hk, if_true, List.mem_cons] at hf
    rcases hf with rfl | hf
    · rw [Key.withIntID_intID]
      omega
    · have := ih (fun a ha => hinc a (List.mem_cons_of_mem _ ha)) (n + 1) f hf
      omega

theorem completeAll_nodup (ks : List Key) (hinc : ∀ k ∈ ks, k.Incomplete = true) :
    ∀ n : Nat, ((completeAll n ks).1.map fingerprint).Nodup := by
  induction ks with
  | nil => intro n; simp [completeAll]
  | cons k ks ih =>
    intro n
    have hk := hinc k (List.mem_cons_self k ks)
    have hrest : ∀ a ∈ ks, a.Incomplete = true := fun a ha => hinc a (List.mem_cons_of_mem _ ha)
    simp only [completeAll, hk, if_true, List.map_cons, List.nodup_cons]
    refine ⟨?_, ih hrest (n + 1)⟩
    intro hmem
    obtain ⟨f, hf, hfp⟩ := List.mem_map.1 hmem
    have h1 := completeAll_intID_gt ks hrest (n + 1) f hf
    have h2 := fingerprint_intID _ _ hfp
    rw [Key.withIntID_intID] at h2
    omega

theorem tableSetAll_not_mem (ps : List (List PathElem)) :
    ∀ (es : List E) (t : Table E) (p : List PathElem), p ∉ ps →
      tableSetAll t (ps.zip es) p = t p := by
  induction ps with
  | nil => intro es t p _; rfl
  | cons q ps ih =>
    intro es t p hp
    cases es with
    | nil => rfl
    | cons e es =>
      show tableSetAll (tableSet t q e) (ps.zip es) p = t p
      rw [ih es _ p (fun h => hp (List.mem_cons_of_mem _ h))]
      have : p ≠ q := fun h => hp (h ▸ List.mem_cons_self q ps)
      simp [tableSet, this]

/-- After a batch of writes under pairwise different keys, each key holds the entry
written at its position. -/
theorem tableSetAll_get (ps : List (List PathElem)) :
    ∀ (es : List E) (t : Table E), ps.Nodup →
      ∀ (i : Nat) (p : List PathElem) (e : E), ps[i]? = some p → es[i]? = some e →
        tableSetAll t (ps.zip es) p = some e := by
  induction ps with
  | nil => intro es t _ i p e hp _; simp at hp
  | cons q ps ih =>
    intro es t hnd i p e hp he
    cases es with
    | nil => simp at he
    | cons e0 es =>
      show tableSetAll (tableSet t q e0) (ps.zip es) p = some e
      rw [List.nodup_cons] at hnd
      cases i with
      | zero =>
        simp only [List.getElem?_cons_zero, Option.some.injEq] at hp he
        subst hp
        subst he
        rw [tableSetAll_not_mem ps es _ q hnd.1]
        exact tableSet_same t q e0
      | succ i =>
        simp only [List.getElem?_cons_succ] at hp he
        exact ih es _ hnd.2 i p e hp he

theorem map_eq_map_of_positions {α β γ : Type} (f : α → γ) (g : β → γ) (l1 : List α) :
    ∀ l2 : List β, l1.length = l2.length →
      (∀ (i : Nat) (a : α) (c : β), l1[i]? = some a → l2[i]? = some c → f a = g c) →
      l1.map f = l2.map g := by
  induction l1 with
  | nil =>
    intro l2 hlen _
    cases l2 with
    | nil => rfl
    | cons c l2 => simp at hlen
  | cons a l1 ih =>
    intro l2 hlen h
    cases l2 with
    | nil => simp at hlen
    | cons c l2 =>
      simp only [List.map_cons, List.cons.injEq]
      refine ⟨h 0 a c (by simp) (by simp), ih l2 (by simpa using hlen) ?_⟩
      intro i a1 c1 h1 h2
      exact h (i + 1) a1 c1 (by simpa using h1) (by simpa using h2)

theorem filterMap_eq_nil_of_forall {α β : Type} (f : α → Option β) (l : List α)
    (h : ∀ a ∈ l, f a = none) : l.filterMap f = [] := by
  induction l with
  | nil => rfl
  | cons a l ih =>
    rw [List.filterMap_cons, h a (List.mem_cons_self a l)]
    exact ih (fun x hx => h x (List.mem_cons_of_mem _ hx))

theorem filterMap_map_some {α : Type} (l : List α) :
    (l.map some).filterMap (fun x => x) = l := by
  induction l with
  | nil => rfl
  | cons a l ih => rw [List.map_cons, List.filterMap_cons]; simp only [ih]

theorem aggregate_map_none {α : Type} (l : List α) :
    aggregate (l.map fun _ => (none : Option Error)) = none := by
  simp [aggregate]

/-- A batch write of records under valid incomplete identifiers, with both
collaborators serving: the store completes the identifiers, and the store and the
cache hold the batch of entries. -/
theorem putMulti_ok (b : Binding R E) (s : State E) (keys : List Key) (recs : List R)
    (hlen : keys.length = recs.length) (hpos : 0 < keys.length)
    (hinc : ∀ k ∈ keys, k.Incomplete = true) :
    PutMulti b Env.healthy s (keys.map some) recs =
      (⟨tableSetAll s.store
          (((completeAll s.nextID keys).1.map fingerprint).zip (recs.map b.save)),
        tableSetAll s.cache
          (((completeAll s.nextID keys).1.map fingerprint).zip (recs.map b.save)),
        (completeAll s.nextID keys).2⟩,
       .ok (completeAll s.nextID keys).1) := by
  have hne : (keys.map some).isEmpty = false := by
    cases keys with
    | nil => simp at hpos
    | cons k ks => rfl
  have herr : (keys.map some).map putKeyError = keys.map fun _ => (none : Option Error) := by
    rw [List.map_map]
    apply List.map_congr_left
    intro k hk
    simp [putKeyError, hinc k hk]
  have hfm : (keys.map some).filterMap (fun key => key) = keys :=
    filterMap_map_some keys
  simp only [PutMulti, List.length_map, hlen, ne_eq, not_true_eq_false, if_false, hne,
    herr, aggregate_map_none, Env.healthy, hfm, storePutAll, cacheSetAll, if_true]
  simp

/-- A batch read of valid identifiers that a serving cache holds: every position is
read from the cache and nothing else changes. -/
theorem getMulti_of_cache (b : Binding R E) (s : State E) (finals : List Key) (es : List E)
    (hlen : finals.length = es.length) (hpos : 0 < finals.length)
    (hvalid : ∀ f ∈ finals, valid (some f) = true)
    (hcache : ∀ (i : Nat) (f : Key) (e : E), finals[i]? = some f → es[i]? = some e →
      s.cache (fingerprint f) = some e) :
    GetMulti b Env.healthy s (finals.map some) =
      (s, es.map (fun e => some (b.load e)), none) := by
  have hne : (finals.map some).isEmpty = false := by
    cases finals with
    | nil => simp at hpos
    | cons k ks => rfl
  have hres : (finals.map some).map (fun key => (Get b Env.healthy s key).2)
      = es.map fun e => (Except.ok (b.load e) : Except Error R) := by
    rw [List.map_map]
    apply map_eq_map_of_positions _ _ finals es hlen
    intro i f e hf he
    exact get_of_cache b Env.healthy s f e (hvalid f (List.getElem?_mem hf)) rfl
      (hcache i f e hf he)
  have hrep : (finals.map some).filterMap (repopulation b Env.healthy s) = [] := by
    apply filterMap_eq_nil_of_forall
    intro key hkey
    obtain ⟨f, hf, rfl⟩ := List.mem_map.1 hkey
    obtain ⟨i, hi⟩ := List.getElem?_of_mem hf
    have hi2 : i < es.length := by
      rw [← hlen]
      exact (List.getElem?_eq_some_iff.1 hi).1
    have hc := hcache i f es[i] hi (List.getElem?_eq_getElem hi2)
    simp [repopulation, hvalid f hf, cacheGet, Env.healthy, hc]
  simp only [GetMulti, hne, hres, hrep, List.map_map]
  simp [cacheSetAll, Env.healthy, tableSetAll, aggregate, errorOf, Except.toOption,
    Function.comp_def]

theorem valid_fingerprints (finals : List Key) (hvalid : ∀ f ∈ finals, valid (some f) = true) :
    ((finals.map some).filter fun key => valid key).filterMap (fun key => key.map fingerprint)
      = finals.map fingerprint := by
  induction finals with
  | nil => rfl
  | cons f fs ih =>
    have hf := hvalid f (List.mem_cons_self f fs)
    rw [List.map_cons, List.filter_cons_of_pos (by simpa using hf), List.filterMap_cons]
    simp only [Option.map_some', List.map_cons, List.cons.injEq, true_and]
    exact ih (fun a ha => hvalid a (List.mem_cons_of_mem _ ha))

/-- A batch delete of valid identifiers, with both collaborators serving: the store and
the cache lose the entries of the identifiers, and no error is returned. -/
theorem deleteMulti_ok (s : State E) (finals : List Key) (hpos : 0 < finals.length)
    (hvalid : ∀ f ∈ finals, valid (some f) = true) :
    DeleteMulti Env.healthy s (finals.map some) =
      (⟨tableRemoveAll s.store (finals.map fingerprint),
        tableRemoveAll s.cache (finals.map fingerprint), s.nextID⟩, none) := by
  have hne : (finals.map some).isEmpty = false := by
    cases finals with
    | nil => simp at hpos
    | cons k ks => rfl
  have hscan : multiValidScan (finals.map some) = false := by
    rw [multiValidScan_eq_false_iff]
    intro key hkey
    obtain ⟨f, hf, rfl⟩ := List.mem_map.1 hkey
    exact hvalid f hf
  simp [DeleteMulti, hne, Env.healthy, valid_fingerprints finals hvalid, cacheDeleteAll,
    multiValid, hscan]

/-- A batch read of valid identifiers that neither the cache nor a serving store holds:
every position carries the not-found error. -/
theorem getMulti_not_found (b : Binding R E) (s : State E) (finals : List Key)
    (hpos : 0 < finals.length) (hvalid : ∀ f ∈ finals, valid (some f) = true)
    (hcache : ∀ f ∈ finals, s.cache (fingerprint f) = none)
    (hstore : ∀ f ∈ finals, s.store (fingerprint f) = none) :
    GetMulti b Env.healthy s (finals.map some) =
      (s, List.replicate finals.length none,
        some (Error.MultiError (List.replicate finals.length (some Error.ErrNoSuchEntity)))) := by
  have hne : (finals.map some).isEmpty = false := by
    cases finals with
    | nil => simp at hpos
    | cons k ks => rfl
  have hres : (finals.map some).map (fun key => (Get b Env.healthy s key).2)
      = finals.map fun _ => (Except.error Error.ErrNoSuchEntity : Except Error R) := by
    rw [List.map_map]
    apply List.map_congr_left
    intro f hf
    exact get_not_found b Env.healthy s f (hvalid f hf) (Or.inr (hcache f hf)) rfl
      (hstore f hf)
  have hrep : (finals.map some).filterMap (repopulation b Env.healthy s) = [] := by
    apply filterMap_eq_nil_of_forall
    intro key hkey
    obtain ⟨f, hf, rfl⟩ := List.mem_map.1 hkey
    simp [repopulation, hvalid f hf, cacheGet, Env.healthy, hcache f hf, storeGet,
      hstore f hf]
  have hall : (List.replicate finals.length (some Error.ErrNoSuchEntity)).all Option.isNone
      = false := by
    cases finals with
    | nil => simp at hpos
    | cons k ks => simp [List.replicate_succ]
  simp only [GetMulti, hne, hres, hrep, List.map_map]
  simp [cacheSetAll, Env.healthy, tableSetAll, aggregate, errorOf, Except.toOption,
    Function.comp_def, List.map_const', hall]

/-- C16, as stated, fails for the empty batch: after the batch delete, the batch read of
no identifiers returns at once with no error, not a MultiError. -/
theorem multi_roundtrip_counterexample :
    (PutMulti test.structBinding Env.healthy State.empty [] []).2 = .ok [] ∧
    (GetMulti test.structBinding Env.healthy
      (DeleteMulti Env.healthy (State.empty : State Int) []).1 []).2.2 = none ∧
    ∀ errs : List (Option Error),
      (GetMulti test.structBinding Env.healthy
        (DeleteMulti Env.healthy (State.empty : State Int) []).1 []).2.2
        ≠ some (Error.MultiError errs) :=
  ⟨rfl, rfl, fun _ h => Option.noConfusion h⟩

/-- C16, amended: in a run where the store and the cache serve every call, for every
list of `n ≥ 1` valid incomplete identifiers and `n` records, `PutMulti` succeeds and
returns `n` identifiers; `GetMulti` on them returns no error and fills the output, in
the same order, with `load (save r)` for each record `r`, which is `r` for a record
type whose load undoes its save; `DeleteMulti` on them succeeds, and `GetMulti` then
returns a MultiError of `n` entries, each the not-found error. -/
theorem multi_roundtrip (b : Binding R E) (s : State E) (keys : List Key) (recs : List R)
    (hlen : keys.length = recs.length) (hpos : 0 < keys.length)
    (hinc : ∀ k ∈ keys, k.Incomplete = true)
    (hvalid : ∀ k ∈ keys, valid (some k) = true) :
    ∃ (finals : List Key) (s1 s2 s3 : State E),
      PutMulti b Env.healthy s (keys.map some) recs = (s1, .ok finals) ∧
      finals.length = keys.length ∧
      GetMulti b Env.healthy s1 (finals.map some)
        = (s2, recs.map (fun r => some (b.load (b.save r))), none) ∧
      DeleteMulti Env.healthy s2 (finals.map some) = (s3, none) ∧
      (GetMulti b Env.healthy s3 (finals.map some)).2.2
        = some (Error.MultiError (List.replicate keys.length (some Error.ErrNoSuchEntity))) := by
  have hflen := completeAll_length keys s.nextID
  have hfvalid := completeAll_valid keys hinc hvalid s.nextID
  have hfpos : 0 < (completeAll s.nextID keys).1.length := by rw [hflen]; exact hpos
  have hput := putMulti_ok b s keys recs hlen hpos hinc
  have hget := getMulti_of_cache b
    (⟨tableSetAll s.store
        (((completeAll s.nextID keys).1.map fingerprint).zip (recs.map b.save)),
      tableSetAll s.cache
        (((completeAll s.nextID keys).1.map fingerprint).zip (recs.map b.save)),
      (completeAll s.nextID keys).2⟩ : State E)
    (completeAll s.nextID keys).1 (recs.map b.save)
    (by rw [hflen, hlen, List.length_map]) hfpos hfvalid
    (by
      intro i f e hf he
      exact tableSetAll_get _ _ _ (completeAll_nodup keys hinc s.nextID) i _ e
        (by simp [hf]) he)
  rw [List.map_map] at hget
  have hdel := deleteMulti_ok
    (⟨tableSetAll s.store
        (((completeAll s.nextID keys).1.map fingerprint).zip (recs.map b.save)),
      tableSetAll s.cache
        (((completeAll s.nextID keys).1.map fingerprint).zip (recs.map b.save)),
      (completeAll s.nextID keys).2⟩ : State E)
    (completeAll s.nextID keys).1 hfpos hfvalid
  refine ⟨(completeAll s.nextID keys).1, _, _, _, hput, hflen, hget, hdel, ?_⟩
  rw [getMulti_not_found b _ _ hfpos hfvalid]
  · rw [hflen]
  · intro f hf
    simp only [tableRemoveAll]
    rw [if_pos (List.mem_map_of_mem _ hf)]
  · intro f hf
    simp only [tableRemoveAll]
    rw [if_pos (List.mem_map_of_mem _ hf)]

/-- Witness of C16, amended: two structs under two incomplete keys, as in
`TestWithStructArray` with two items. -/
theorem multi_roundtrip_witness :
    ∃ (finals : List Key) (s1 s2 s3 : State Int),
      PutMulti test.structBinding Env.healthy State.empty
        ([test.newIncompleteKey "Struct", test.newIncompleteKey "Struct"].map some) [1, 2]
        = (s1, .ok finals) ∧
      finals.length = 2 ∧
      GetMulti test.structBinding Env.healthy s1 (finals.map some)
        = (s2, [some 1, some 2], none) ∧
      DeleteMulti Env.healthy s2 (finals.map some) = (s3, none) ∧
      (GetMulti test.structBinding Env.healthy s3 (finals.map some)).2.2
        = some (Error.MultiError [some Error.ErrNoSuchEntity, some Error.ErrNoSuchEntity]) :=
  multi_roundtrip test.structBinding State.empty
    [test.newIncompleteKey "Struct", test.newIncompleteKey "Struct"] [1, 2] rfl (by decide)
    (by decide) (by decide)

end MultiItem



end Cachestore
